import Mathlib

/-! distributed-grep: the categorised object-storage layer

A shallow embedding of `common/minio` (bucket registry and storage
orchestrator), `common/models` and the gating state of `common/logger`.

Go values are embedded as follows.

* `string` is `String`; `fmt.Sprintf` with `%s` verbs is concatenation.
* `error` is `Option String`: `none` is the nil error, `some m` an error whose
  message is `m`; `fmt.Errorf` with `%w` splices the wrapped message.
* `int`, `int64` are `Int`; byte payloads (`io.Reader` contents) are `List UInt8`.
* a pointer that may be nil is an `Option`; dereferencing `none` is a panic.
* the object store behind `minio-go` is an explicit `Store` value that is
  passed through every call, together with an `Env` that supplies what the
  outside world decides (faults, the clock, the JSON codec).
-/

namespace DistGrep

/-! ## common/minio/buckets.go -/

/-- StorageType is a Go string type. -/
abbrev StorageType := String

/-- The constant `TextType`. -/
def TextType : StorageType := "text/plain"

/-- The constant `JSONType`. -/
def JSONType : StorageType := "application/json"

/-- StorageCategory is a Go string type. -/
abbrev StorageCategory := String

/-- The constant `LogStorage`. -/
def LogStorage : StorageCategory := "LOGS"

/-- The constant `ChunkStorage`. -/
def ChunkStorage : StorageCategory := "CHUNKS"

/-- The constant `ResultStorage`. -/
def ResultStorage : StorageCategory := "RESULTS"

/-- BucketOptions configures one bucket (the Go field `Type` is `Typ` here). -/
structure BucketOptions where
  Name : String
  Typ : StorageType
  Category : StorageCategory
  deriving DecidableEq, Repr

/-- StorageOptions keeps the ordered bucket configuration. -/
structure StorageOptions where
  Buckets : List BucketOptions
  deriving DecidableEq, Repr

/-- The loop of `Validate`: the first entry with a bad type or a bad category
ends the scan with that entry's error; the end of the list gives nil. -/
def validateBuckets : List BucketOptions → Option String
  | [] => none
  | bucket :: rest =>
    if bucket.Typ = TextType ∨ bucket.Typ = JSONType then
      if bucket.Category = LogStorage ∨ bucket.Category = ChunkStorage
          ∨ bucket.Category = ResultStorage then
        validateBuckets rest
      else
        some "category type is not valid, only Logs, Chunks and Results are supported"
    else
      some "data type to be stored in not valid"

/-- The method `StorageOptions.Validate`. -/
def StorageOptions.Validate (so : StorageOptions) : Option String :=
  validateBuckets so.Buckets

/-- The loop of `GetBucketByCategory`: the first entry whose category is the
requested one is returned. -/
def firstByCategory (category : StorageCategory) : List BucketOptions → Option BucketOptions
  | [] => none
  | bucket :: rest =>
    if bucket.Category = category then some bucket else firstByCategory category rest

/-- The method `StorageOptions.GetBucketByCategory`; `none` is the nil pointer. -/
def StorageOptions.GetBucketByCategory (so : StorageOptions) (category : StorageCategory) :
    Option BucketOptions :=
  firstByCategory category so.Buckets

/-! ## common/models/models.go -/

/-- Context holds the lines before and after a match. -/
structure Context where
  Before : List String
  After : List String
  deriving DecidableEq, Repr

/-- Match is a single grep match. -/
structure Match where
  LineNumber : Int
  Content : String
  FileName : String
  Context : Context
  deriving DecidableEq, Repr

/-- Chunk is a portion of a file to be processed; times are clock ticks. -/
structure Chunk where
  ID : String
  JobID : String
  FileName : String
  StartByte : Int
  EndByte : Int
  Size : Int
  CreatedAt : Nat
  StartLine : Int
  EndLine : Int
  deriving DecidableEq, Repr

/-- Result is the processed result of one mapper. -/
structure Result where
  ID : String
  JobID : String
  ChunkID : String
  Matches : List Match
  CreatedAt : Nat
  ProcessedBytes : Int
  ProcessedLines : Int
  MatchCount : Int
  deriving DecidableEq, Repr

/-- LogFile is a file available for grepping. -/
structure LogFile where
  Name : String
  Path : String
  Size : Int
  UpdatedAt : Nat
  deriving DecidableEq, Repr

/-! ## common/logger/logger.go (the part the storage layer depends on) -/

/-- Priority is a Go int type. -/
abbrev Priority := Int

/-- The constant `DEBUG`. -/
def DEBUG : Priority := 0

/-- The constant `INFO`. -/
def INFO : Priority := 1

/-- The constant `WARNING`. -/
def WARNING : Priority := 2

/-- The constant `ERR`. -/
def ERR : Priority := 3

/-- The constant `SILENT`. -/
def SILENT : Priority := 999

/-- Logger, reduced to its gating state (the embedded slog logger is the sink). -/
structure Logger where
  level : Priority
  deriving DecidableEq, Repr

/-- The constructor `logger.New`: the default level is `INFO`. -/
def Logger.New : Logger := ⟨INFO⟩

/-! ## The object store behind the client

The MinIO client library is not part of the repository.  The store is an
explicit value: a list of stored objects, each tagged with its bucket. -/

/-- Byte payloads. -/
abbrev Bytes := List UInt8

/-- One object held by the store. -/
structure StoredObject where
  Bucket : String
  Key : String
  Data : Bytes
  ContentType : String
  UserMetadata : List (String × String)
  LastModified : Nat
  deriving DecidableEq, Repr

/-- The state of the object store. -/
abbrev Store := List StoredObject

/-- What the outside world decides: the clock, per-call faults of the store
(`none` means the call goes through) and the `encoding/json` codec for
`models.Result`. -/
structure Env where
  now : Nat
  putFault : String → String → Option String
  getFault : String → String → Option String
  readFault : String → String → Option String
  listFault : String → String → Option String
  removeFault : String → String → Option String
  marshal : Result → Except String Bytes
  decode : Bytes → Except String Result

/-- ObjectInfo as delivered by a listing or a stat call. -/
structure ObjectInfo where
  Key : String
  Size : Int
  LastModified : Nat
  UserMetadata : List (String × String)
  Err : Option String
  deriving DecidableEq, Repr

/-- RemoveObjectError as delivered on the error channel of a bulk removal. -/
structure RemoveObjectError where
  ObjectName : String
  Err : Option String
  deriving DecidableEq, Repr

/-- Outcome of a call that only reads the store. -/
inductive Ret (α : Type) where
  | ok (a : α)
  | error (msg : String)
  | panic
  deriving DecidableEq, Repr

/-- Outcome of a call that may write the store: the returned error and the
store afterwards, or a panic. -/
inductive Eff where
  | done (err : Option String) (st : Store)
  | panic
  deriving DecidableEq, Repr

/-- Go's `strings.HasPrefix`. -/
def hasPrefix (s pfx : String) : Bool :=
  pfx.data.isPrefixOf s.data

/-- The object stored under a key of a bucket, if any. -/
def lookupObject (st : Store) (bucket key : String) : Option StoredObject :=
  st.find? (fun o => decide (o.Bucket = bucket ∧ o.Key = key))

/-- The store without the object under a key of a bucket. -/
def removeObject (st : Store) (bucket key : String) : Store :=
  st.filter (fun o => !decide (o.Bucket = bucket ∧ o.Key = key))

/-- Lookup of a user-metadata tag; a missing tag reads as the empty string,
as indexing a Go map does. -/
def metaGet (m : List (String × String)) (k : String) : String :=
  match m.find? (fun kv => decide (kv.1 = k)) with
  | some kv => kv.2
  | none => ""

/-- Modelled from the spec: the gateway call put-object (§6), which lives in
the MinIO client library.  A fault of the outside world rejects the write; a
declared size of zero or more that differs from the number of bytes supplied
rejects it too; a negative declared size streams the whole payload.  An
accepted write replaces the object under the key. -/
def PutObject (env : Env) (st : Store) (bucket key : String) (data : Bytes) (size : Int)
    (contentType : String) (userMetadata : List (String × String)) : Option String × Store :=
  match env.putFault bucket key with
  | some e => (some e, st)
  | none =>
    if 0 ≤ size ∧ size ≠ (data.length : Int) then
      (some "declared size does not match the payload", st)
    else
      (none, removeObject st bucket key ++
        [⟨bucket, key, data, contentType, userMetadata, env.now⟩])

/-- Modelled from the spec: what stat reports for a stored object (§6). -/
def statOf (o : StoredObject) : ObjectInfo :=
  ⟨o.Key, (o.Data.length : Int), o.LastModified, o.UserMetadata, none⟩

/-- Modelled from the spec: reading an object handle (stat or payload), the
lazy half of get-object (§6): it fails on a fault or when the key is absent. -/
def readObject (env : Env) (st : Store) (bucket key : String) : Except String StoredObject :=
  match env.readFault bucket key with
  | some e => .error e
  | none =>
    match lookupObject st bucket key with
    | none => .error "The specified key does not exist."
    | some o => .ok o

/-- The keys of a bucket that start with a given string, in store order. -/
def keysUnder (st : Store) (bucket pfx : String) : List StoredObject :=
  st.filter (fun o => decide (o.Bucket = bucket) && hasPrefix o.Key pfx)

/-- The part of a key after the listing's leading string, cut after its first
`/`: `some dir` when there is one (the key lies in a sub-directory). -/
def commonDir (rest : List Char) : Option (List Char) :=
  if rest.contains '/' then some (rest.takeWhile (fun c => c != '/') ++ ['/']) else none

/-- One entry of a delimited (non-recursive) listing: the object itself when
nothing but its name follows the leading string, else its common directory. -/
def delimitedEntry (pfx : String) (o : StoredObject) : ObjectInfo :=
  match commonDir (o.Key.data.drop pfx.data.length) with
  | some dir => ⟨pfx ++ String.mk dir, 0, 0, [], none⟩
  | none => ⟨o.Key, (o.Data.length : Int), o.LastModified, [], none⟩

/-- Entries with pairwise different keys: a later entry with a key already
seen is dropped. -/
def addEntry (acc : List ObjectInfo) (e : ObjectInfo) : List ObjectInfo :=
  if acc.any (fun x => decide (x.Key = e.Key)) then acc else acc ++ [e]

/-- Modelled from the spec: the gateway call list-objects (§6).  A recursive
listing has one entry per object whose key starts with the given string; a
listing that is not recursive stops at the delimiter `/` and reports each
sub-directory once.  An entry the outside world faults arrives as an error
item. -/
def ListObjects (env : Env) (st : Store) (bucket pfx : String) (recursive : Bool) :
    List ObjectInfo :=
  let entries : List ObjectInfo :=
    if recursive then
      (keysUnder st bucket pfx).map
        (fun o => ⟨o.Key, (o.Data.length : Int), o.LastModified, [], none⟩)
    else
      ((keysUnder st bucket pfx).map (delimitedEntry pfx)).foldl addEntry []
  entries.map (fun e =>
    match env.listFault bucket e.Key with
    | some err => ⟨"", 0, 0, [], some err⟩
    | none => e)

/-- Modelled from the spec: the gateway call remove-objects (§6): the keys are
consumed in order, each gives one report; a faulted key stays in the store. -/
def RemoveObjects (env : Env) (bucket : String) :
    Store → List ObjectInfo → Store × List RemoveObjectError
  | st, [] => (st, [])
  | st, object :: rest =>
    match env.removeFault bucket object.Key with
    | some e =>
      let r := RemoveObjects env bucket st rest
      (r.1, ⟨object.Key, some e⟩ :: r.2)
    | none =>
      let r := RemoveObjects env bucket (removeObject st bucket object.Key) rest
      (r.1, ⟨object.Key, none⟩ :: r.2)

/-- Go's `filepath.Base` on a slash-separated path: trailing slashes are
dropped, the last element is returned; the empty path gives `.`, a path of
slashes only gives `/`. -/
def filepathBase (path : String) : String :=
  if path.data = [] then "."
  else
    let stripped := (path.data.reverse.dropWhile (fun c => c == '/'))
    let last := (stripped.takeWhile (fun c => c != '/')).reverse
    if last = [] then "/" else String.mk last

/-! ## common/minio/minio.go and common/minio/storage.go -/

/-- MinOptions holds the connection settings of the client. -/
structure MinOptions where
  Endpoint : String
  AccessKeyID : String
  SecretAccessKey : String
  SSL : Bool
  deriving DecidableEq, Repr

/-- Storage is the client wrapper.  `minioClient` tells whether the client
pointer is set (it is nil until `Instantiate` has run). -/
structure Storage where
  client : MinOptions
  minioClient : Bool
  storageOptions : StorageOptions
  deriving DecidableEq, Repr

/-- The function `InitLogger`: the new value of the package variable `log`. -/
def InitLogger (l : Option Logger) : Option Logger :=
  match l with
  | some x => some x
  | none => some Logger.New

/-- The constructor `New`.  `pkgLog` is the package variable `log` before the
call; the result is the wrapper, the error of `Validate`, and the package
variable afterwards.  The parameter named `log` shadows the package variable,
so only a nil argument reaches `InitLogger`. -/
def New (endpoint accessKeyID secretAccessKey : String) (ssl : Bool) (log : Option Logger)
    (opts : StorageOptions) (pkgLog : Option Logger) :
    Storage × Option String × Option Logger :=
  let pkgLog1 := if log = none then InitLogger none else pkgLog
  let minioOptions : MinOptions := ⟨endpoint, accessKeyID, secretAccessKey, ssl⟩
  let c : Storage := ⟨minioOptions, false, opts⟩
  (c, opts.Validate, pkgLog1)

/-- A call of a method of the package logger followed by the rest of a reading
call: the method dereferences the logger, so a nil logger panics. -/
def logThen {α : Type} (log : Option Logger) (next : Ret α) : Ret α :=
  match log with
  | none => .panic
  | some _ => next

/-- A call of a method of the package logger followed by the rest of a writing
call. -/
def logThenEff (log : Option Logger) (next : Eff) : Eff :=
  match log with
  | none => .panic
  | some _ => next

/-- The method `UploadLogFile`. -/
def UploadLogFile (s : Storage) (log : Option Logger) (env : Env) (st : Store)
    (logFile : LogFile) (reader : Bytes) : Eff :=
  match s.storageOptions.GetBucketByCategory LogStorage with
  | none => .panic
  | some bucket =>
    if !s.minioClient then .panic
    else
      match PutObject env st bucket.Name logFile.Path reader (-1) bucket.Typ
          [("uploaded_at", toString env.now)] with
      | (some err, st1) =>
        logThenEff log
          (.done (some ("failed to upload log file " ++ logFile.Name ++ ": " ++ err)) st1)
      | (none, st1) =>
        logThenEff log (.done none st1)

/-- The loop of `ListLogFiles` over the listing channel. -/
def listLogLoop (log : Option Logger) : List ObjectInfo → List LogFile → Ret (List LogFile)
  | [], logFiles => .ok logFiles
  | object :: rest, logFiles =>
    match object.Err with
    | some _ =>
      logThen log (listLogLoop log rest logFiles)
    | none =>
      listLogLoop log rest
        (logFiles ++ [⟨filepathBase object.Key, object.Key, object.Size, object.LastModified⟩])

/-- The method `ListLogFiles`. -/
def ListLogFiles (s : Storage) (log : Option Logger) (env : Env) (st : Store) :
    Ret (List LogFile) :=
  match s.storageOptions.GetBucketByCategory LogStorage with
  | none => .panic
  | some bucket =>
    if !s.minioClient then .panic
    else listLogLoop log (ListObjects env st bucket.Name "" true) []

/-- The method `StoreChunk`. -/
def StoreChunk (s : Storage) (log : Option Logger) (env : Env) (st : Store)
    (chunk : Chunk) (reader : Bytes) : Eff :=
  match s.storageOptions.GetBucketByCategory ChunkStorage with
  | none => .panic
  | some bucket =>
    if !s.minioClient then .panic
    else
      let objectName := chunk.JobID ++ "/chunk_" ++ chunk.ID
      match PutObject env st bucket.Name objectName reader chunk.Size bucket.Typ
          [("job_id", chunk.JobID), ("chunk_id", chunk.ID), ("file_name", chunk.FileName),
           ("start_byte", toString chunk.StartByte), ("end_byte", toString chunk.EndByte)] with
      | (some err, st1) =>
        logThenEff log (.done (some ("failed to store chunk " ++ chunk.ID ++ ": " ++ err)) st1)
      | (none, st1) =>
        logThenEff log (.done none st1)

/-- The method `GetChunk`: the header and the bytes of the returned stream. -/
def GetChunk (s : Storage) (env : Env) (st : Store) (jobID chunkID : String) :
    Ret (Chunk × Bytes) :=
  match s.storageOptions.GetBucketByCategory ChunkStorage with
  | none => .panic
  | some bucket =>
    if !s.minioClient then .panic
    else
      let objectName := jobID ++ "/chunk_" ++ chunkID
      match env.getFault bucket.Name objectName with
      | some err => .error ("failed to get chunk " ++ chunkID ++ ": " ++ err)
      | none =>
        match readObject env st bucket.Name objectName with
        | .error err => .error ("failed to get chunk stats: " ++ err)
        | .ok object =>
          let info := statOf object
          .ok (⟨chunkID, jobID, metaGet info.UserMetadata "file_name", 0, 0, info.Size,
                info.LastModified, 0, 0⟩, object.Data)

/-- The method `StoreResult`. -/
def StoreResult (s : Storage) (log : Option Logger) (env : Env) (st : Store)
    (result : Result) : Eff :=
  let bucket := s.storageOptions.GetBucketByCategory ResultStorage
  let objectName := result.JobID ++ "/result_" ++ result.ID ++ ".json"
  match env.marshal result with
  | .error err => .done (some ("failed to marshal result: " ++ err)) st
  | .ok data =>
    match bucket with
    | none => .panic
    | some bucket =>
      if !s.minioClient then .panic
      else
        match PutObject env st bucket.Name objectName data (data.length : Int) "application/json"
            [("job_id", result.JobID), ("chunk_id", result.ChunkID)] with
        | (some err, st1) =>
          logThenEff log (.done (some ("failed to store result " ++ result.ID ++ ": " ++ err)) st1)
        | (none, st1) =>
          logThenEff log (.done none st1)

/-- One iteration of the loop of `GetJobResults`: the decoded result of a
listed object, or the reason it is skipped. -/
def fetchResult (env : Env) (st : Store) (bucketName : String) (object : ObjectInfo) :
    Except String Result :=
  match object.Err with
  | some err => .error err
  | none =>
    match env.getFault bucketName object.Key with
    | some err => .error err
    | none =>
      match readObject env st bucketName object.Key with
      | .error err => .error err
      | .ok o => env.decode o.Data

/-- The loop of `GetJobResults` over the listing channel: a skipped item is
logged, which needs the package logger. -/
def jobResultsLoop (log : Option Logger) (env : Env) (st : Store) (bucketName : String) :
    List ObjectInfo → List Result → Ret (List Result)
  | [], results => .ok results
  | object :: rest, results =>
    match fetchResult env st bucketName object with
    | .error _ =>
      logThen log (jobResultsLoop log env st bucketName rest results)
    | .ok result => jobResultsLoop log env st bucketName rest (results ++ [result])

/-- The method `GetJobResults`. -/
def GetJobResults (s : Storage) (log : Option Logger) (env : Env) (st : Store)
    (jobID : String) : Ret (List Result) :=
  match s.storageOptions.GetBucketByCategory ResultStorage with
  | none => .panic
  | some bucket =>
    if !s.minioClient then .panic
    else
      let pfx := jobID ++ "/"
      jobResultsLoop log env st bucket.Name (ListObjects env st bucket.Name pfx false) []

/-- The loop of `deleteJobObjects` over the error channel; `none` is a panic
(logging through a nil logger). -/
def collectDeleteErrors (log : Option Logger) :
    List RemoveObjectError → List String → Option (List String)
  | [], deleteErrors => some deleteErrors
  | err :: rest, deleteErrors =>
    match err.Err with
    | some cause =>
      match log with
      | none => none
      | some _ =>
        collectDeleteErrors log rest
          (deleteErrors ++ ["failed to delete " ++ err.ObjectName ++ ": " ++ cause])
    | none => collectDeleteErrors log rest deleteErrors

/-- Go's `%v` of a slice of errors: the messages, blank-separated, in brackets. -/
def formatErrors (es : List String) : String :=
  "[" ++ " ".intercalate es ++ "]"

/-- The method `deleteJobObjects`.  The listing goroutine and the bulk removal
are run one after the other: the listing is taken first, its items without an
error are handed to the removal. -/
def deleteJobObjects (s : Storage) (log : Option Logger) (env : Env) (st : Store)
    (category : StorageCategory) (jobID : String) : Eff :=
  match s.storageOptions.GetBucketByCategory category with
  | none => .panic
  | some bucket =>
    if !s.minioClient then .panic
    else
      let pfx := jobID ++ "/"
      let listing := ListObjects env st bucket.Name pfx true
      if listing.any (fun object => object.Err.isSome) && log.isNone then .panic
      else
        let objectsCh := listing.filter (fun object => object.Err.isNone)
        let removed := RemoveObjects env bucket.Name st objectsCh
        match collectDeleteErrors log removed.2 [] with
        | none => .panic
        | some deleteErrors =>
          if deleteErrors.length > 0 then
            .done (some ("failed to delete some objects: " ++ formatErrors deleteErrors)) removed.1
          else .done none removed.1

/-- The method `DeleteJob`. -/
def DeleteJob (s : Storage) (log : Option Logger) (env : Env) (st : Store)
    (jobID : String) : Eff :=
  match deleteJobObjects s log env st ChunkStorage jobID with
  | .panic => .panic
  | .done (some err) st1 => .done (some ("failed to delete job chunks: " ++ err)) st1
  | .done none st1 =>
    match deleteJobObjects s log env st1 ResultStorage jobID with
    | .panic => .panic
    | .done (some err) st2 => .done (some ("failed to delete job results: " ++ err)) st2
    | .done none st2 => .done none st2

/-- A run of `UploadLogFile` calls, one after the other; the run stops at the
first call that returns an error or panics. -/
def uploadAll (s : Storage) (log : Option Logger) (env : Env) :
    Store → List (LogFile × Bytes) → Eff
  | st, [] => .done none st
  | st, (logFile, reader) :: rest =>
    match UploadLogFile s log env st logFile reader with
    | .panic => .panic
    | .done (some err) st1 => .done (some err) st1
    | .done none st1 => uploadAll s log env st1 rest

/-! ## common/logger/logger.go: the logging methods -/

/-- A record handed to the embedded slog logger: the slog level, the message
and the attributes.  The handler that `logger.New` installs is enabled from
the debug level on, so every record handed over is written. -/
structure LogRecord where
  Level : String
  Msg : String
  Args : List String
  deriving DecidableEq, Repr

/-- The method `SetLevel`. -/
def Logger.SetLevel (_l : Logger) (level : Priority) : Logger := ⟨level⟩

/-- The method `Debug`: the records written. -/
def Logger.Debug (l : Logger) (msg : String) (args : List String) : List LogRecord :=
  if l.level ≤ DEBUG then [⟨"DEBUG", msg, args⟩] else []

/-- The method `Info`: the records written. -/
def Logger.Info (l : Logger) (msg : String) (args : List String) : List LogRecord :=
  if l.level ≤ INFO then [⟨"INFO", msg, args⟩] else []

/-- The method `Warn`: the records written. -/
def Logger.Warn (l : Logger) (msg : String) (args : List String) : List LogRecord :=
  if l.level ≤ WARNING then [⟨"WARN", msg, args⟩] else []

/-- The method `Error`: the records written.  `caller` is what
`runtime.Caller(1)` reports (file, line, function), `none` when it is not ok;
it is appended to the attributes. -/
def Logger.Error (l : Logger) (caller : Option (String × Int × String)) (msg : String)
    (args : List String) : List LogRecord :=
  if l.level ≤ ERR then
    match caller with
    | some (file, line, func) =>
      [⟨"ERROR", msg, args ++ ["file", file, "line", toString line, "func", func]⟩]
    | none => [⟨"ERROR", msg, args⟩]
  else []

/-- The method `LogAtLevel`: the records written.  Its call of `Error` is seen
by `runtime.Caller(1)` as coming from `LogAtLevel` itself. -/
def Logger.LogAtLevel (l : Logger) (level : Priority) (msg : String) (args : List String) :
    List LogRecord :=
  if level < l.level then []
  else if level = DEBUG then l.Debug msg args
  else if level = INFO then l.Info msg args
  else if level = WARNING then l.Warn msg args
  else if level = ERR then
    l.Error (some ("logger/logger.go", 85, "logger.(*Logger).LogAtLevel")) msg args
  else []

/-! ## common/minio/storage.go: Instantiate -/

/-- What the outside world decides while the buckets are provisioned: whether
the client can be built, and the faults of the existence check and of the
creation of a bucket. -/
structure BucketWorld where
  clientFault : Option String
  existsFault : String → Option String
  makeFault : String → Option String

/-- Outcome of the bucket loop of `Instantiate`: the returned error and the
buckets that exist afterwards, or a panic. -/
inductive Provisioned where
  | done (err : Option String) (buckets : List String)
  | panic
  deriving DecidableEq, Repr

/-- Outcome of `Instantiate`: the returned error, the wrapper and the buckets
that exist afterwards, or a panic. -/
inductive Instantiated where
  | done (err : Option String) (s : Storage) (buckets : List String)
  | panic
  deriving DecidableEq, Repr

/-- A call of a method of the package logger followed by the rest of the
bucket loop. -/
def logThenProvisioned (log : Option Logger) (next : Provisioned) : Provisioned :=
  match log with
  | none => .panic
  | some _ => next

/-- The bucket loop of `Instantiate`: every configured bucket is checked and
created when it does not exist. -/
def ensureBuckets (log : Option Logger) (w : BucketWorld) :
    List BucketOptions → List String → Provisioned
  | [], buckets => .done none buckets
  | bucket :: rest, buckets =>
    match w.existsFault bucket.Name with
    | some err =>
      logThenProvisioned log
        (.done (some ("failed to check bucket " ++ bucket.Name ++ ": " ++ err)) buckets)
    | none =>
      if buckets.contains bucket.Name then ensureBuckets log w rest buckets
      else
        match w.makeFault bucket.Name with
        | some err =>
          logThenProvisioned log
            (.done (some ("failed to create bucket " ++ bucket.Name ++ ": " ++ err)) buckets)
        | none =>
          logThenProvisioned log (ensureBuckets log w rest (buckets ++ [bucket.Name]))

/-- The method `Instantiate`.  `buckets` are the buckets that exist before the
call. -/
def Instantiate (s : Storage) (log : Option Logger) (w : BucketWorld) (buckets : List String) :
    Instantiated :=
  match w.clientFault with
  | some err =>
    match log with
    | none => .panic
    | some _ => .done (some ("failed to initialize minio client: " ++ err)) s buckets
  | none =>
    let s1 : Storage := ⟨s.client, true, s.storageOptions⟩
    match ensureBuckets log w s.storageOptions.Buckets buckets with
    | .panic => .panic
    | .done (some err) buckets1 => .done (some err) s1 buckets1
    | .done none buckets1 =>
      match log with
      | none => .panic
      | some _ => .done none s1 buckets1

/-! ## Sample values -/

/-- The configuration of the integration test: one bucket per category. -/
def sampleOptions : StorageOptions :=
  ⟨[⟨"logs", TextType, LogStorage⟩, ⟨"chunks", TextType, ChunkStorage⟩,
    ⟨"results", JSONType, ResultStorage⟩]⟩

/-- A wrapper over `sampleOptions` whose client is set. -/
def sampleStorage : Storage :=
  ⟨⟨"localhost:9000", "minio", "minio123", false⟩, true, sampleOptions⟩

/-- An outside world without faults; its codec stands for no particular
format: it encodes every result as the empty payload and decodes nothing. -/
def quietEnv : Env :=
  ⟨7, fun _ _ => none, fun _ _ => none, fun _ _ => none, fun _ _ => none, fun _ _ => none,
   fun _ => .ok [], fun _ => .error "unexpected end of JSON input"⟩

/-- An outside world without faults whose codec is given. -/
def codecEnv (marshal : Result → Except String Bytes) (decode : Bytes → Except String Result) :
    Env :=
  ⟨7, fun _ _ => none, fun _ _ => none, fun _ _ => none, fun _ _ => none, fun _ _ => none,
   marshal, decode⟩

/-- An outside world in which every removal from one bucket is refused and
nothing else fails. -/
def denyEnv (refused : String) : Env :=
  ⟨7, fun _ _ => none, fun _ _ => none, fun _ _ => none, fun _ _ => none,
   fun bucket _ => if bucket = refused then some "Access Denied." else none,
   fun _ => .ok [], fun _ => .error "unexpected end of JSON input"⟩

/-- A result whose ID has a slash in it. -/
def nestedResult : Result := ⟨"a/b", "j1", "c1", [], 0, 0, 0, 2⟩

/-- A store that holds one chunk and one result of job `j1`. -/
def jobStore : Store :=
  [⟨"chunks", "j1/chunk_c1", [10, 20, 30], "text/plain", [], 7⟩,
   ⟨"results", "j1/result_r1.json", [123, 125], "application/json", [], 7⟩]

/-- Two log files with different paths, as in the repository's test. -/
def sampleLogs : List (LogFile × Bytes) :=
  [(⟨"service1/app.log", "service1/app.log", 2, 0⟩, [65, 10]),
   (⟨"service2/app.log", "service2/app.log", 1, 0⟩, [10])]

/-- The configuration of the repository's log-file test: a Logs bucket only. -/
def logsOnlyOptions : StorageOptions :=
  ⟨[⟨"test-logs", TextType, LogStorage⟩]⟩

/-- A wrapper over `logsOnlyOptions` whose client is set. -/
def logsOnlyStorage : Storage :=
  ⟨⟨"localhost:9000", "minio", "minio123", false⟩, true, logsOnlyOptions⟩

/-- The configuration of the repository's chunk test: a Chunks bucket only. -/
def chunksOnlyOptions : StorageOptions :=
  ⟨[⟨"test-chunks", TextType, ChunkStorage⟩]⟩

/-- A wrapper over `chunksOnlyOptions` whose client is set. -/
def chunksOnlyStorage : Storage :=
  ⟨⟨"localhost:9000", "minio", "minio123", false⟩, true, chunksOnlyOptions⟩

/-- A configuration that `Validate` accepts and that routes the three
categories to one bucket. -/
def sharedOptions : StorageOptions :=
  ⟨[⟨"data", TextType, LogStorage⟩, ⟨"data", TextType, ChunkStorage⟩,
    ⟨"data", JSONType, ResultStorage⟩]⟩

/-- A wrapper over `sharedOptions` whose client is set. -/
def sharedStorage : Storage :=
  ⟨⟨"localhost:9000", "minio", "minio123", false⟩, true, sharedOptions⟩

/-- An outside world without faults whose codec reads every payload as one
given result. -/
def echoEnv (r : Result) : Env :=
  codecEnv (fun _ => .ok [123, 125]) (fun _ => .ok r)

/-- A world in which the client is built and every bucket call goes through. -/
def quietWorld : BucketWorld :=
  ⟨none, fun _ => none, fun _ => none⟩

/-- An outside world in which the listing of one result key and of one log
key fails, the payload under another result key cannot be fetched, and the
codec reads every payload that starts with the byte 123 as a fixed result. -/
def patchyEnv : Env :=
  ⟨7, fun _ _ => none,
   fun _ key => if key = "j1/result_r2.json" then some "connection reset" else none,
   fun _ _ => none,
   fun _ key =>
     if key = "j1/result_r3.json" ∨ key = "service2/app.log" then some "listing interrupted"
     else none,
   fun _ _ => none,
   fun _ => .ok [123, 125],
   fun data => if data.head? = some 123 then .ok ⟨"r1", "j1", "c1", [], 0, 0, 0, 2⟩
     else .error "invalid character"⟩

/-- A store with four objects under the directory of job `j1` in the bucket
`results`, the payload of the last one not being a JSON document, and two log
files in the bucket `logs`. -/
def patchyStore : Store :=
  [⟨"results", "j1/result_r1.json", [123, 125], "application/json", [], 7⟩,
   ⟨"results", "j1/result_r2.json", [123, 125], "application/json", [], 7⟩,
   ⟨"results", "j1/result_r3.json", [123, 125], "application/json", [], 7⟩,
   ⟨"results", "j1/result_r4.json", [60], "application/json", [], 7⟩,
   ⟨"logs", "service1/app.log", [65, 10], "text/plain", [], 7⟩,
   ⟨"logs", "service2/app.log", [66, 10], "text/plain", [], 7⟩]

/-- A store that holds a chunk and a result of each of the jobs `j1` and `j2`. -/
def twoJobStore : Store :=
  [⟨"chunks", "j1/chunk_c1", [10, 20, 30], "text/plain", [], 7⟩,
   ⟨"chunks", "j2/chunk_c1", [40], "text/plain", [], 7⟩,
   ⟨"results", "j1/result_r1.json", [123, 125], "application/json", [], 7⟩,
   ⟨"results", "j2/result_r1.json", [123, 125], "application/json", [], 7⟩]

/-! ## Specification-side notions -/

/-- The property every accepted entry has: a type and a category of the closed
enumerations. -/
def entryValid (b : BucketOptions) : Prop :=
  (b.Typ = "text/plain" ∨ b.Typ = "application/json") ∧
    (b.Category = "LOGS" ∨ b.Category = "CHUNKS" ∨ b.Category = "RESULTS")

/-- The failed objects of a bulk removal, as the spec names them: the key and
the cause of every report that carries an error, in the order reported. -/
def failedObjects (reports : List RemoveObjectError) : List (String × String) :=
  reports.filterMap (fun r => r.Err.map (fun cause => (r.ObjectName, cause)))

/-- The objects of a store that a deletion phase on a bucket leaves when
nothing fails: those outside the bucket or outside the job's key range. -/
def withoutJob (st : Store) (bucket jobID : String) : Store :=
  st.filter (fun o => !(decide (o.Bucket = bucket) && hasPrefix o.Key (jobID ++ "/")))

/-- The reports a deletion phase receives from the bulk removal: one per key
the listing handed over. -/
def removalReports (env : Env) (st : Store) (bucket jobID : String) : List RemoveObjectError :=
  (RemoveObjects env bucket st
    ((ListObjects env st bucket (jobID ++ "/") true).filter (fun o => o.Err.isNone))).2

/-- The store a deletion phase leaves behind: the store after the bulk
removal of the keys the listing handed over. -/
def removalStore (env : Env) (st : Store) (bucket jobID : String) : Store :=
  (RemoveObjects env bucket st
    ((ListObjects env st bucket (jobID ++ "/") true).filter (fun o => o.Err.isNone))).1

/-- The message of one failed object inside the aggregated error. -/
def failureText (f : String × String) : String :=
  "failed to delete " ++ f.1 ++ ": " ++ f.2

/-- The object an accepted `UploadLogFile` leaves in the Logs bucket. -/
def uploadedObject (env : Env) (bucket : BucketOptions) (fp : LogFile × Bytes) : StoredObject :=
  ⟨bucket.Name, fp.1.Path, fp.2, bucket.Typ, [("uploaded_at", toString env.now)], env.now⟩

/-- The entry `ListLogFiles` is expected to report for an uploaded file. -/
def listedEntry (env : Env) (fp : LogFile × Bytes) : LogFile :=
  ⟨filepathBase fp.1.Path, fp.1.Path, (fp.2.length : Int), env.now⟩

/-- The object key `StoreChunk` and `GetChunk` compute for a job and chunk ID. -/
def chunkKey (jobID id : String) : String :=
  jobID ++ "/chunk_" ++ id

/-- The object key `StoreResult` computes for a job and result ID. -/
def resultKey (jobID id : String) : String :=
  jobID ++ "/result_" ++ id ++ ".json"

/-- The entry `ListLogFiles` builds from a listed object. -/
def logFileOf (o : ObjectInfo) : LogFile :=
  ⟨filepathBase o.Key, o.Key, o.Size, o.LastModified⟩

/-- What the spec calls a failed item of `GetJobResults`: its listing carries
an error, or the object cannot be fetched (the get call or the read is
faulted, or no object is stored under the key), or its payload does not
decode. -/
def itemFails (env : Env) (st : Store) (bucket : String) (o : ObjectInfo) : Prop :=
  o.Err ≠ none ∨ env.getFault bucket o.Key ≠ none ∨ env.readFault bucket o.Key ≠ none ∨
    lookupObject st bucket o.Key = none ∨
    ∃ obj msg, lookupObject st bucket o.Key = some obj ∧ env.decode obj.Data = .error msg

/-- The result a listed item stands for, stated from the store and the
outside world alone: `none` for a failed item (listing error, get or read
fault, absent key, undecodable payload), else the decoded payload of the
object stored under the item's key. -/
def resultOf (env : Env) (st : Store) (bucket : String) (o : ObjectInfo) : Option Result :=
  if o.Err.isSome then none
  else if (env.getFault bucket o.Key).isSome then none
  else if (env.readFault bucket o.Key).isSome then none
  else
    match lookupObject st bucket o.Key with
    | none => none
    | some obj =>
      match env.decode obj.Data with
      | .ok r => some r
      | .error _ => none

/-! ## Bucket registry -/

theorem validateBuckets_none_iff (l : List BucketOptions) :
    validateBuckets l = none ↔ ∀ b ∈ l, entryValid b := by
  induction l with
  | nil => simp [validateBuckets]
  | cons b rest ih =>
    unfold validateBuckets
    by_cases ht : b.Typ = TextType ∨ b.Typ = JSONType
    · by_cases hc : b.Category = LogStorage ∨ b.Category = ChunkStorage
          ∨ b.Category = ResultStorage
      · rw [if_pos ht, if_pos hc, ih]
        have hb : entryValid b := ⟨ht, hc⟩
        constructor
        · intro h x hx
          rcases List.mem_cons.mp hx with rfl | hx
          · exact hb
          · exact h x hx
        · intro h x hx
          exact h x (List.mem_cons_of_mem _ hx)
      · rw [if_pos ht, if_neg hc]
        constructor
        · intro h
          cases h
        · intro h
          exact absurd (h b (List.mem_cons_self _ _)).2 hc
    · rw [if_neg ht]
      constructor
      · intro h
        cases h
      · intro h
        exact absurd (h b (List.mem_cons_self _ _)).1 ht

theorem firstByCategory_some_iff (c : StorageCategory) (l : List BucketOptions)
    (b : BucketOptions) :
    firstByCategory c l = some b ↔
      ∃ before after, l = before ++ b :: after ∧ b.Category = c ∧
        ∀ x ∈ before, x.Category ≠ c := by
  induction l with
  | nil => simp [firstByCategory]
  | cons a rest ih =>
    unfold firstByCategory
    by_cases ha : a.Category = c
    · rw [if_pos ha]
      constructor
      · intro h
        cases h
        exact ⟨[], rest, rfl, ha, by simp⟩
      · rintro ⟨before, after, hl, _, hb⟩
        cases before with
        | nil =>
          simp only [List.nil_append, List.cons.injEq] at hl
          rw [hl.1]
        | cons x xs =>
          simp only [List.cons_append, List.cons.injEq] at hl
          exact absurd (hl.1 ▸ ha) (hb x (List.mem_cons_self _ _))
    · rw [if_neg ha, ih]
      constructor
      · rintro ⟨before, after, hl, hc, hb⟩
        refine ⟨a :: before, after, by rw [hl]; rfl, hc, ?_⟩
        intro x hx
        rcases List.mem_cons.mp hx with rfl | hx
        · exact ha
        · exact hb x hx
      · rintro ⟨before, after, hl, hc, hb⟩
        cases before with
        | nil =>
          simp only [List.nil_append, List.cons.injEq] at hl
          exact absurd (hl.1 ▸ hc) ha
        | cons x xs =>
          simp only [List.cons_append, List.cons.injEq] at hl
          exact ⟨xs, after, hl.2, hc, fun y hy => hb y (List.mem_cons_of_mem _ hy)⟩

theorem firstByCategory_none_iff (c : StorageCategory) (l : List BucketOptions) :
    firstByCategory c l = none ↔ ∀ x ∈ l, x.Category ≠ c := by
  induction l with
  | nil => simp [firstByCategory]
  | cons a rest ih =>
    unfold firstByCategory
    by_cases ha : a.Category = c
    · rw [if_pos ha]
      constructor
      · intro h
        cases h
      · intro h
        exact absurd ha (h a (List.mem_cons_self _ _))
    · rw [if_neg ha, ih]
      constructor
      · intro h x hx
        rcases List.mem_cons.mp hx with rfl | hx
        · exact ha
        · exact h x hx
      · intro h x hx
        exact h x (List.mem_cons_of_mem _ hx)

/-- C1: `Validate` returns no error exactly when every bucket entry has its
type in text/plain, application/json and its category in LOGS, CHUNKS,
RESULTS; the error `New` returns is the one of `Validate`; the empty
configuration is accepted. -/
theorem Validate_accepts_iff (so : StorageOptions) :
    (so.Validate = none ↔
      ∀ b ∈ so.Buckets,
        (b.Typ = "text/plain" ∨ b.Typ = "application/json") ∧
          (b.Category = "LOGS" ∨ b.Category = "CHUNKS" ∨ b.Category = "RESULTS")) ∧
    (∀ (endpoint accessKeyID secretAccessKey : String) (ssl : Bool)
        (log pkgLog : Option Logger),
      (New endpoint accessKeyID secretAccessKey ssl log so pkgLog).2.1 = so.Validate) ∧
    StorageOptions.Validate ⟨[]⟩ = none := by
  refine ⟨?_, ?_, ?_⟩
  · exact validateBuckets_none_iff so.Buckets
  · intros
    rfl
  · rfl

/-- C2: `GetBucketByCategory` returns an entry exactly when it is the first
entry, in configuration order, whose category is the requested one (no entry
before it has that category), and returns nil exactly when no entry has the
category. -/
theorem GetBucketByCategory_first_match (so : StorageOptions) (category : StorageCategory) :
    (∀ b, so.GetBucketByCategory category = some b ↔
      ∃ before after, so.Buckets = before ++ b :: after ∧ b.Category = category ∧
        ∀ x ∈ before, x.Category ≠ category) ∧
    (so.GetBucketByCategory category = none ↔
      ∀ x ∈ so.Buckets, x.Category ≠ category) :=
  ⟨fun b => firstByCategory_some_iff category so.Buckets b,
   firstByCategory_none_iff category so.Buckets⟩

/-! ## Chunks -/

theorem removeObject_lookup (st : Store) (b k : String) :
    lookupObject (removeObject st b k) b k = none := by
  unfold lookupObject removeObject
  rw [List.find?_eq_none]
  intro o ho
  have h := (List.mem_filter.mp ho).2
  simp only [Bool.not_eq_true', decide_eq_false_iff_not] at h
  simpa using h

theorem lookup_after_put (st : Store) (b k : String) (d : Bytes) (ct : String)
    (m : List (String × String)) (t : Nat) :
    lookupObject (removeObject st b k ++ [⟨b, k, d, ct, m, t⟩]) b k =
      some ⟨b, k, d, ct, m, t⟩ := by
  have h := removeObject_lookup st b k
  unfold lookupObject at h ⊢
  rw [List.find?_append, h]
  simp

theorem lookup_none_of_absent (st : Store) (b k : String)
    (h : ∀ o ∈ st, ¬ (o.Bucket = b ∧ o.Key = k)) : lookupObject st b k = none := by
  unfold lookupObject
  rw [List.find?_eq_none]
  intro o ho
  have := h o ho
  simpa using this

/-- C3: chunk round trip.  With the Chunks bucket configured, the client and
the package logger set, a store that accepts the write and serves the read,
and a declared size equal to the payload length, `StoreChunk` returns no error
and `GetChunk` for the same job and chunk ID then returns a header with the
chunk's ID, JobID, FileName and Size together with exactly the payload. -/
theorem StoreChunk_GetChunk_roundtrip (s : Storage) (lg : Logger) (env : Env) (st : Store)
    (chunk : Chunk) (P : Bytes) (bucket : BucketOptions)
    (hb : s.storageOptions.GetBucketByCategory ChunkStorage = some bucket)
    (hc : s.minioClient = true)
    (hsize : chunk.Size = (P.length : Int))
    (hput : env.putFault bucket.Name (chunk.JobID ++ "/chunk_" ++ chunk.ID) = none)
    (hget : env.getFault bucket.Name (chunk.JobID ++ "/chunk_" ++ chunk.ID) = none)
    (hread : env.readFault bucket.Name (chunk.JobID ++ "/chunk_" ++ chunk.ID) = none) :
    ∃ st1 hdr,
      StoreChunk s (some lg) env st chunk P = .done none st1 ∧
      GetChunk s env st1 chunk.JobID chunk.ID = .ok (hdr, P) ∧
      hdr.ID = chunk.ID ∧ hdr.JobID = chunk.JobID ∧ hdr.FileName = chunk.FileName ∧
      hdr.Size = chunk.Size := by
  have hneg : ¬ (0 ≤ chunk.Size ∧ chunk.Size ≠ (P.length : Int)) := fun h => h.2 hsize
  refine ⟨removeObject st bucket.Name (chunk.JobID ++ "/chunk_" ++ chunk.ID) ++
      [⟨bucket.Name, chunk.JobID ++ "/chunk_" ++ chunk.ID, P, bucket.Typ,
        [("job_id", chunk.JobID), ("chunk_id", chunk.ID), ("file_name", chunk.FileName),
         ("start_byte", toString chunk.StartByte), ("end_byte", toString chunk.EndByte)],
        env.now⟩],
    ⟨chunk.ID, chunk.JobID, chunk.FileName, 0, 0, (P.length : Int), env.now, 0, 0⟩,
    ?_, ?_, rfl, rfl, rfl, hsize.symm⟩
  · simp only [StoreChunk, hb, hc, PutObject, hput, if_neg hneg]
    rfl
  · simp only [GetChunk, hb, hc, hget, readObject, hread, lookup_after_put]
    simp [statOf, metaGet]

/-- The witness of C3: the chunk of the repository's test, with a short payload. -/
theorem StoreChunk_GetChunk_roundtrip_witness :
    ∃ st1 hdr,
      StoreChunk sampleStorage (some Logger.New) quietEnv []
          ⟨"chunk1", "job123", "service1/app.log", 0, 3, 3, 0, 0, 0⟩ [10, 20, 30] =
        .done none st1 ∧
      GetChunk sampleStorage quietEnv st1 "job123" "chunk1" = .ok (hdr, [10, 20, 30]) ∧
      hdr.ID = "chunk1" ∧ hdr.JobID = "job123" ∧ hdr.FileName = "service1/app.log" ∧
      hdr.Size = 3 :=
  StoreChunk_GetChunk_roundtrip sampleStorage Logger.New quietEnv []
    ⟨"chunk1", "job123", "service1/app.log", 0, 3, 3, 0, 0, 0⟩ [10, 20, 30]
    ⟨"chunks", TextType, ChunkStorage⟩ (by decide) rfl (by decide) rfl rfl rfl

/-- C5: when the Chunks bucket holds no object under the key of a job and
chunk ID, `GetChunk` returns an error: neither a header and stream nor a
panic. -/
theorem GetChunk_missing_is_error (s : Storage) (env : Env) (st : Store)
    (jobID chunkID : String) (bucket : BucketOptions)
    (hb : s.storageOptions.GetBucketByCategory ChunkStorage = some bucket)
    (hc : s.minioClient = true)
    (habsent : ∀ o ∈ st, ¬ (o.Bucket = bucket.Name ∧ o.Key = jobID ++ "/chunk_" ++ chunkID)) :
    ∃ msg, GetChunk s env st jobID chunkID = .error msg := by
  have hl := lookup_none_of_absent st bucket.Name (jobID ++ "/chunk_" ++ chunkID) habsent
  simp only [GetChunk, hb, hc, readObject, hl]
  cases env.getFault bucket.Name (jobID ++ "/chunk_" ++ chunkID) with
  | some e => exact ⟨_, rfl⟩
  | none =>
    cases env.readFault bucket.Name (jobID ++ "/chunk_" ++ chunkID) with
    | some e => exact ⟨_, rfl⟩
    | none => exact ⟨_, rfl⟩

/-- The witness of C5: the unknown pair of the repository's test on a store
that holds another chunk. -/
theorem GetChunk_missing_is_error_witness :
    ∃ msg, GetChunk sampleStorage quietEnv
        [⟨"chunks", "job123/chunk_chunk1", [10, 20, 30], "text/plain", [], 7⟩]
        "nonexistent" "chunk" = .error msg :=
  GetChunk_missing_is_error sampleStorage quietEnv
    [⟨"chunks", "job123/chunk_chunk1", [10, 20, 30], "text/plain", [], 7⟩]
    "nonexistent" "chunk" ⟨"chunks", TextType, ChunkStorage⟩ (by decide) rfl (by decide)

/-- C9: on the chunk of the repository's test with byte range 2 to 5,
`StoreChunk` writes the tags start_byte = 2 and end_byte = 5, and `GetChunk`
returns a header whose StartByte and EndByte are both 0: the byte range is
not rebuilt from the tags (the file name is). -/
theorem GetChunk_drops_byte_range :
    StoreChunk sampleStorage (some Logger.New) quietEnv []
        ⟨"chunk1", "job123", "service1/app.log", 2, 5, 3, 0, 0, 0⟩ [10, 20, 30] =
      .done none [⟨"chunks", "job123/chunk_chunk1", [10, 20, 30], "text/plain",
        [("job_id", "job123"), ("chunk_id", "chunk1"), ("file_name", "service1/app.log"),
         ("start_byte", "2"), ("end_byte", "5")], 7⟩] ∧
    GetChunk sampleStorage quietEnv [⟨"chunks", "job123/chunk_chunk1", [10, 20, 30],
        "text/plain",
        [("job_id", "job123"), ("chunk_id", "chunk1"), ("file_name", "service1/app.log"),
         ("start_byte", "2"), ("end_byte", "5")], 7⟩] "job123" "chunk1" =
      .ok (⟨"chunk1", "job123", "service1/app.log", 0, 0, 3, 7, 0, 0⟩, [10, 20, 30]) := by
  constructor <;> decide

/-! ## Results -/

/-- C4: a result whose ID has a slash in it is stored under a key one level
below the job's directory; the recursive listing that `deleteJobObjects` uses
reports the object, while `GetJobResults`, whose listing is not recursive,
returns the empty sequence whatever the codec encodes and decodes. -/
theorem GetJobResults_misses_nested_id (data : Bytes) (decode : Bytes → Except String Result) :
    StoreResult sampleStorage (some Logger.New) (codecEnv (fun _ => .ok data) decode) []
        nestedResult =
      .done none [⟨"results", "j1/result_a/b.json", data, "application/json",
        [("job_id", "j1"), ("chunk_id", "c1")], 7⟩] ∧
    (ListObjects (codecEnv (fun _ => .ok data) decode)
        [⟨"results", "j1/result_a/b.json", data, "application/json",
          [("job_id", "j1"), ("chunk_id", "c1")], 7⟩] "results" "j1/" true).map
        (fun o => o.Key) = ["j1/result_a/b.json"] ∧
    GetJobResults sampleStorage (some Logger.New) (codecEnv (fun _ => .ok data) decode)
        [⟨"results", "j1/result_a/b.json", data, "application/json",
          [("job_id", "j1"), ("chunk_id", "c1")], 7⟩] "j1" = .ok [] := by
  refine ⟨?_, rfl, rfl⟩
  have hb : sampleStorage.storageOptions.GetBucketByCategory ResultStorage =
      some ⟨"results", JSONType, ResultStorage⟩ := by decide
  simp only [StoreResult, codecEnv, hb, PutObject]
  simp [sampleStorage, nestedResult, removeObject, logThenEff]

/-! ## Deletion -/

theorem collectDeleteErrors_logged (lg : Logger) (reports : List RemoveObjectError)
    (acc : List String) :
    collectDeleteErrors (some lg) reports acc =
      some (acc ++ (failedObjects reports).map failureText) := by
  induction reports generalizing acc with
  | nil => simp [collectDeleteErrors, failedObjects]
  | cons r rest ih =>
    unfold collectDeleteErrors
    cases hr : r.Err with
    | none =>
      simp only [ih]
      simp [failedObjects, List.filterMap_cons, hr]
    | some cause =>
      simp only [ih]
      simp [failedObjects, List.filterMap_cons, hr, failureText]

theorem failedObjects_eq_nil_iff (reports : List RemoveObjectError) :
    failedObjects reports = [] ↔ ∀ r ∈ reports, r.Err = none := by
  unfold failedObjects
  rw [List.filterMap_eq_nil_iff]
  constructor
  · intro h r hr
    have := h r hr
    cases hE : r.Err with
    | none => rfl
    | some c => simp [hE] at this
  · intro h r hr
    simp [h r hr]

/-- C8: with the bucket configured and the client and the package logger
set, a deletion phase returns an error exactly when at least one report of
the bulk removal carries an error, and the error it returns is the single
message that lists every failed object, key and cause, in the order reported;
reports without an error contribute nothing. -/
theorem deleteJobObjects_aggregates (s : Storage) (lg : Logger) (env : Env) (st : Store)
    (category : StorageCategory) (jobID : String) (bucket : BucketOptions)
    (hb : s.storageOptions.GetBucketByCategory category = some bucket)
    (hc : s.minioClient = true) :
    ∃ err st1,
      deleteJobObjects s (some lg) env st category jobID = .done err st1 ∧
      (err ≠ none ↔ ∃ r ∈ removalReports env st bucket.Name jobID, r.Err ≠ none) ∧
      err =
        if failedObjects (removalReports env st bucket.Name jobID) = [] then none
        else some ("failed to delete some objects: [" ++
          " ".intercalate
            ((failedObjects (removalReports env st bucket.Name jobID)).map
              (fun f => "failed to delete " ++ f.1 ++ ": " ++ f.2)) ++ "]") := by
  have hrun : deleteJobObjects s (some lg) env st category jobID =
      if ((failedObjects (removalReports env st bucket.Name jobID)).map failureText).length > 0
      then .done (some ("failed to delete some objects: " ++
          formatErrors ((failedObjects (removalReports env st bucket.Name jobID)).map
            failureText)))
        (removalStore env st bucket.Name jobID)
      else .done none (removalStore env st bucket.Name jobID) := by
    simp only [deleteJobObjects, hb, hc, collectDeleteErrors_logged, removalReports,
      removalStore]
    simp
  refine ⟨if failedObjects (removalReports env st bucket.Name jobID) = [] then none
      else some ("failed to delete some objects: [" ++
        " ".intercalate
          ((failedObjects (removalReports env st bucket.Name jobID)).map
            (fun f => "failed to delete " ++ f.1 ++ ": " ++ f.2)) ++ "]"),
    removalStore env st bucket.Name jobID, ?_, ?_, rfl⟩
  · rw [hrun]
    by_cases hf : failedObjects (removalReports env st bucket.Name jobID) = []
    · rw [if_pos hf, hf]
      rfl
    · rw [if_neg hf, if_pos]
      · have hfun : failureText = (fun f => "failed to delete " ++ f.1 ++ ": " ++ f.2) := rfl
        have hlit : "failed to delete some objects: " ++ "[" =
            "failed to delete some objects: [" := by decide
        simp only [formatErrors, hfun, ← String.append_assoc, hlit]
      · rw [List.length_map]
        exact List.length_pos.mpr hf
  · by_cases hf : failedObjects (removalReports env st bucket.Name jobID) = []
    · rw [if_pos hf]
      constructor
      · intro h
        exact absurd rfl h
      · rintro ⟨r, hr, hne⟩
        exact absurd ((failedObjects_eq_nil_iff _).mp hf r hr) hne
    · rw [if_neg hf]
      constructor
      · intro _
        by_contra hall
        apply hf
        rw [failedObjects_eq_nil_iff]
        intro r hr
        by_contra hne
        exact hall ⟨r, hr, hne⟩
      · intro _ h
        cases h

/-- The witness of C8: the one chunk of job `j1` cannot be removed. -/
theorem deleteJobObjects_aggregates_witness :
    ∃ err st1,
      deleteJobObjects sampleStorage (some Logger.New) (denyEnv "chunks") jobStore
          ChunkStorage "j1" = .done err st1 ∧
      (err ≠ none ↔ ∃ r ∈ removalReports (denyEnv "chunks") jobStore "chunks" "j1",
        r.Err ≠ none) ∧
      err =
        if failedObjects (removalReports (denyEnv "chunks") jobStore "chunks" "j1") = []
        then none
        else some ("failed to delete some objects: [" ++
          " ".intercalate
            ((failedObjects (removalReports (denyEnv "chunks") jobStore "chunks" "j1")).map
              (fun f => "failed to delete " ++ f.1 ++ ": " ++ f.2)) ++ "]") :=
  deleteJobObjects_aggregates sampleStorage Logger.New (denyEnv "chunks") jobStore
    ChunkStorage "j1" ⟨"chunks", TextType, ChunkStorage⟩ (by decide) rfl

theorem RemoveObjects_store (env : Env) (b : String) (objs : List ObjectInfo) (st : Store) :
    (RemoveObjects env b st objs).1 =
      st.filter (fun o => !(decide (o.Bucket = b) &&
        objs.any (fun x => decide (x.Key = o.Key) && (env.removeFault b x.Key).isNone))) := by
  induction objs generalizing st with
  | nil => simp [RemoveObjects]
  | cons x rest ih =>
    unfold RemoveObjects
    cases hx : env.removeFault b x.Key with
    | some e =>
      simp only [ih]
      apply List.filter_congr
      intro o _
      simp [hx]
    | none =>
      simp only [ih, removeObject, List.filter_filter]
      apply List.filter_congr
      intro o _
      by_cases h1 : o.Bucket = b
      · by_cases h2 : x.Key = o.Key
        · have hx2 : env.removeFault b o.Key = none := h2 ▸ hx
          simp [hx2, h1, h2]
        · have h3 : ¬ o.Key = x.Key := fun h => h2 h.symm
          simp [hx, h1, h2, h3]
      · simp [h1]

theorem RemoveObjects_keeps_other_buckets (env : Env) (b : String) (objs : List ObjectInfo)
    (st : Store) (o : StoredObject) (ho : o ∈ st) (hne : o.Bucket ≠ b) :
    o ∈ (RemoveObjects env b st objs).1 := by
  rw [RemoveObjects_store, List.mem_filter]
  exact ⟨ho, by simp [hne]⟩

theorem deleteJobObjects_store (s : Storage) (log : Option Logger) (env : Env) (st : Store)
    (category : StorageCategory) (jobID : String) (bucket : BucketOptions)
    (hb : s.storageOptions.GetBucketByCategory category = some bucket)
    (err : Option String) (st1 : Store)
    (h : deleteJobObjects s log env st category jobID = .done err st1) :
    st1 = removalStore env st bucket.Name jobID := by
  simp only [deleteJobObjects, hb] at h
  split at h
  · cases h
  · split at h
    · cases h
    · split at h
      · cases h
      · split at h
        · cases h
          rfl
        · cases h
          rfl

/-- C7, as stated, fails: the removal of the chunk of job `j1` is refused, the
removal of its result would go through (the Results phase run on its own
removes it without error), and yet `DeleteJob` returns the Chunks error and
leaves the result object in the store: the Results phase is not run. -/
theorem DeleteJob_skips_results_after_chunk_failure :
    DeleteJob sampleStorage (some Logger.New) (denyEnv "chunks") jobStore "j1" =
      .done (some ("failed to delete job chunks: failed to delete some objects: " ++
        "[failed to delete j1/chunk_c1: Access Denied.]")) jobStore ∧
    deleteJobObjects sampleStorage (some Logger.New) (denyEnv "chunks") jobStore
        ResultStorage "j1" =
      .done none [⟨"chunks", "j1/chunk_c1", [10, 20, 30], "text/plain", [], 7⟩] := by
  constructor <;> decide

/-- C7, amended: an error of the Chunks phase ends `DeleteJob` at once: the
call returns that error wrapped as a chunk-deletion failure, with the store
as the Chunks phase left it, so that no object outside the Chunks bucket is
removed; the Results phase runs only after a Chunks phase without error, and
its error is then returned wrapped as a result-deletion failure. -/
theorem DeleteJob_phase_errors (s : Storage) (log : Option Logger) (env : Env) (st : Store)
    (jobID : String) (e : String) (st1 : Store) :
    (deleteJobObjects s log env st ChunkStorage jobID = .done (some e) st1 →
      DeleteJob s log env st jobID =
        .done (some ("failed to delete job chunks: " ++ e)) st1 ∧
      ∀ bucket, s.storageOptions.GetBucketByCategory ChunkStorage = some bucket →
        ∀ o ∈ st, o.Bucket ≠ bucket.Name → o ∈ st1) ∧
    (∀ st0, deleteJobObjects s log env st ChunkStorage jobID = .done none st0 →
      deleteJobObjects s log env st0 ResultStorage jobID = .done (some e) st1 →
      DeleteJob s log env st jobID =
        .done (some ("failed to delete job results: " ++ e)) st1) := by
  constructor
  · intro h
    refine ⟨by simp only [DeleteJob, h], ?_⟩
    intro bucket hb o ho hne
    rw [deleteJobObjects_store s log env st ChunkStorage jobID bucket hb _ _ h]
    exact RemoveObjects_keeps_other_buckets env bucket.Name _ st o ho hne
  · intro st0 h0 h1
    simp only [DeleteJob, h0, h1]

/-- The witness of C7 amended: a refused chunk removal, and a refused result
removal after the chunk was removed. -/
theorem DeleteJob_phase_errors_witness :
    (DeleteJob sampleStorage (some Logger.New) (denyEnv "chunks") jobStore "j1" =
        .done (some ("failed to delete job chunks: " ++
          "failed to delete some objects: [failed to delete j1/chunk_c1: Access Denied.]"))
          jobStore ∧
      ∀ bucket, sampleStorage.storageOptions.GetBucketByCategory ChunkStorage = some bucket →
        ∀ o ∈ jobStore, o.Bucket ≠ bucket.Name → o ∈ jobStore) ∧
    DeleteJob sampleStorage (some Logger.New) (denyEnv "results") jobStore "j1" =
      .done (some ("failed to delete job results: " ++
        "failed to delete some objects: [failed to delete j1/result_r1.json: Access Denied.]"))
        [⟨"results", "j1/result_r1.json", [123, 125], "application/json", [], 7⟩] :=
  ⟨(DeleteJob_phase_errors sampleStorage (some Logger.New) (denyEnv "chunks") jobStore "j1"
      "failed to delete some objects: [failed to delete j1/chunk_c1: Access Denied.]"
      jobStore).1 (by decide),
   (DeleteJob_phase_errors sampleStorage (some Logger.New) (denyEnv "results") jobStore "j1"
      "failed to delete some objects: [failed to delete j1/result_r1.json: Access Denied.]"
      [⟨"results", "j1/result_r1.json", [123, 125], "application/json", [], 7⟩]).2
      [⟨"results", "j1/result_r1.json", [123, 125], "application/json", [], 7⟩]
      (by decide) (by decide)⟩

theorem ListObjects_recursive_clean (env : Env) (st : Store) (b pfx : String)
    (hl : ∀ k, env.listFault b k = none) :
    ListObjects env st b pfx true =
      (keysUnder st b pfx).map
        (fun o => ⟨o.Key, (o.Data.length : Int), o.LastModified, [], none⟩) := by
  simp [ListObjects, hl]

theorem RemoveObjects_reports (env : Env) (b : String) (objs : List ObjectInfo) (st : Store) :
    (RemoveObjects env b st objs).2 =
      objs.map (fun o => ⟨o.Key, env.removeFault b o.Key⟩) := by
  induction objs generalizing st with
  | nil => rfl
  | cons x rest ih =>
    unfold RemoveObjects
    cases hx : env.removeFault b x.Key with
    | some e => simp [ih, hx]
    | none => simp [ih, hx]

theorem collectDeleteErrors_clean (log : Option Logger) (reports : List RemoveObjectError)
    (acc : List String) (h : ∀ r ∈ reports, r.Err = none) :
    collectDeleteErrors log reports acc = some acc := by
  induction reports generalizing acc with
  | nil => rfl
  | cons r rest ih =>
    unfold collectDeleteErrors
    rw [h r (List.mem_cons_self _ _)]
    exact ih acc (fun x hx => h x (List.mem_cons_of_mem _ hx))

theorem deleteJobObjects_clean (s : Storage) (log : Option Logger) (env : Env) (st : Store)
    (category : StorageCategory) (jobID : String) (bucket : BucketOptions)
    (hb : s.storageOptions.GetBucketByCategory category = some bucket)
    (hc : s.minioClient = true)
    (hlist : ∀ k, env.listFault bucket.Name k = none)
    (hrem : ∀ k, env.removeFault bucket.Name k = none) :
    deleteJobObjects s log env st category jobID =
      .done none (withoutJob st bucket.Name jobID) := by
  have hany : ((keysUnder st bucket.Name (jobID ++ "/")).map
      (fun o => (⟨o.Key, (o.Data.length : Int), o.LastModified, [], none⟩ : ObjectInfo))).any
        (fun object => object.Err.isSome) = false := by
    simp
  have hfilter : ((keysUnder st bucket.Name (jobID ++ "/")).map
      (fun o => (⟨o.Key, (o.Data.length : Int), o.LastModified, [], none⟩ : ObjectInfo))).filter
        (fun object => object.Err.isNone) =
      (keysUnder st bucket.Name (jobID ++ "/")).map
        (fun o => ⟨o.Key, (o.Data.length : Int), o.LastModified, [], none⟩) := by
    rw [List.filter_eq_self]
    intro a ha
    obtain ⟨o, _, rfl⟩ := List.mem_map.mp ha
    rfl
  have hcollect : ∀ objs : List ObjectInfo,
      collectDeleteErrors log (RemoveObjects env bucket.Name st objs).2 [] = some [] := by
    intro objs
    apply collectDeleteErrors_clean
    intro r hr
    rw [RemoveObjects_reports] at hr
    obtain ⟨o, _, rfl⟩ := List.mem_map.mp hr
    exact hrem o.Key
  have hstore : (RemoveObjects env bucket.Name st
      ((keysUnder st bucket.Name (jobID ++ "/")).map
        (fun o => (⟨o.Key, (o.Data.length : Int), o.LastModified, [], none⟩ : ObjectInfo)))).1 =
      withoutJob st bucket.Name jobID := by
    rw [RemoveObjects_store, withoutJob]
    apply List.filter_congr
    intro o ho
    by_cases h1 : o.Bucket = bucket.Name
    · by_cases h2 : hasPrefix o.Key (jobID ++ "/") = true
      · have hmem : o ∈ keysUnder st bucket.Name (jobID ++ "/") := by
          rw [keysUnder, List.mem_filter]
          exact ⟨ho, by simp [h1, h2]⟩
        simp only [h1, h2, decide_True, Bool.true_and, Bool.not_true, Bool.not_eq_false',
          List.any_eq_true]
        exact ⟨_, List.mem_map.mpr ⟨o, hmem, rfl⟩, by simp [hrem]⟩
      · have h3 : hasPrefix o.Key (jobID ++ "/") = false := by simpa using h2
        simp only [h1, h3, decide_True, Bool.true_and, Bool.not_false, Bool.not_eq_true',
          List.any_eq_false]
        intro x hx
        obtain ⟨o2, ho2, rfl⟩ := List.mem_map.mp hx
        rw [keysUnder, List.mem_filter] at ho2
        have hp : hasPrefix o2.Key (jobID ++ "/") = true := by
          have := ho2.2
          simp only [Bool.and_eq_true] at this
          exact this.2
        intro hk
        simp only [Bool.and_eq_true, decide_eq_true_eq] at hk
        rw [hk.1] at hp
        exact h2 hp
    · simp [h1]
  simp only [deleteJobObjects, hb, hc, ListObjects_recursive_clean env st bucket.Name _ hlist,
    hany, hfilter, hcollect, hstore]
  rfl

theorem keysUnder_withoutJob (st : Store) (b jobID : String) :
    keysUnder (withoutJob st b jobID) b (jobID ++ "/") = [] := by
  unfold keysUnder withoutJob
  rw [List.filter_filter, List.filter_eq_nil_iff]
  intro o _
  cases decide (o.Bucket = b) <;> cases hasPrefix o.Key (jobID ++ "/") <;> simp

theorem withoutJob_twice (st : Store) (b1 b2 jobID : String) :
    withoutJob (withoutJob (withoutJob (withoutJob st b1 jobID) b2 jobID) b1 jobID) b2 jobID =
      withoutJob (withoutJob st b1 jobID) b2 jobID := by
  unfold withoutJob
  simp only [List.filter_filter]
  apply List.filter_congr
  intro o _
  cases decide (o.Bucket = b1) <;> cases decide (o.Bucket = b2) <;>
    cases hasPrefix o.Key (jobID ++ "/") <;> rfl

theorem ListObjects_of_no_keys (env : Env) (st : Store) (b pfx : String) (recursive : Bool)
    (h : keysUnder st b pfx = []) : ListObjects env st b pfx recursive = [] := by
  unfold ListObjects
  rw [h]
  cases recursive <;> rfl

/-- C6: with the Chunks and Results buckets configured, the client set and a
store whose listing and removal calls do not fail, `DeleteJob` returns no
error; `GetJobResults` for the same job on the store it leaves returns the
empty sequence; and a second `DeleteJob` returns no error and leaves that
store unchanged. -/
theorem DeleteJob_then_empty_and_idempotent (s : Storage) (log : Option Logger) (env : Env)
    (st : Store) (jobID : String) (chunks results : BucketOptions)
    (hbc : s.storageOptions.GetBucketByCategory ChunkStorage = some chunks)
    (hbr : s.storageOptions.GetBucketByCategory ResultStorage = some results)
    (hc : s.minioClient = true)
    (hlist : ∀ b k, env.listFault b k = none)
    (hrem : ∀ b k, env.removeFault b k = none) :
    ∃ st1,
      DeleteJob s log env st jobID = .done none st1 ∧
      GetJobResults s log env st1 jobID = .ok [] ∧
      DeleteJob s log env st1 jobID = .done none st1 := by
  have hdel : ∀ st0, DeleteJob s log env st0 jobID =
      .done none (withoutJob (withoutJob st0 chunks.Name jobID) results.Name jobID) := by
    intro st0
    simp only [DeleteJob,
      deleteJobObjects_clean s log env _ ChunkStorage jobID chunks hbc hc (hlist _) (hrem _),
      deleteJobObjects_clean s log env _ ResultStorage jobID results hbr hc (hlist _) (hrem _)]
  refine ⟨withoutJob (withoutJob st chunks.Name jobID) results.Name jobID, hdel st, ?_, ?_⟩
  · simp only [GetJobResults, hbr, hc,
      ListObjects_of_no_keys env _ results.Name (jobID ++ "/") false
        (keysUnder_withoutJob _ results.Name jobID)]
    rfl
  · rw [hdel, withoutJob_twice]

/-- The witness of C6: job `j1` with one chunk and one result. -/
theorem DeleteJob_then_empty_and_idempotent_witness :
    ∃ st1,
      DeleteJob sampleStorage (some Logger.New) quietEnv jobStore "j1" = .done none st1 ∧
      GetJobResults sampleStorage (some Logger.New) quietEnv st1 "j1" = .ok [] ∧
      DeleteJob sampleStorage (some Logger.New) quietEnv st1 "j1" = .done none st1 :=
  DeleteJob_then_empty_and_idempotent sampleStorage (some Logger.New) quietEnv jobStore "j1"
    ⟨"chunks", TextType, ChunkStorage⟩ ⟨"results", JSONType, ResultStorage⟩
    (by decide) (by decide) rfl (fun _ _ => rfl) (fun _ _ => rfl)

/-! ## Log files -/

theorem removeObject_of_absent (st : Store) (b k : String)
    (h : ∀ o ∈ st, ¬ (o.Bucket = b ∧ o.Key = k)) : removeObject st b k = st := by
  unfold removeObject
  rw [List.filter_eq_self]
  intro o ho
  simp only [Bool.not_eq_true', decide_eq_false_iff_not]
  exact h o ho

theorem UploadLogFile_accepted (s : Storage) (lg : Logger) (env : Env) (st : Store)
    (bucket : BucketOptions) (fp : LogFile × Bytes)
    (hb : s.storageOptions.GetBucketByCategory LogStorage = some bucket)
    (hc : s.minioClient = true)
    (hput : env.putFault bucket.Name fp.1.Path = none) :
    UploadLogFile s (some lg) env st fp.1 fp.2 =
      .done none (removeObject st bucket.Name fp.1.Path ++ [uploadedObject env bucket fp]) := by
  have hneg : ¬ ((0 : Int) ≤ -1 ∧ (-1 : Int) ≠ (fp.2.length : Int)) := by omega
  simp only [UploadLogFile, hb, hc, PutObject, hput, if_neg hneg]
  rfl

theorem uploadAll_accepted (s : Storage) (lg : Logger) (env : Env) (bucket : BucketOptions)
    (hb : s.storageOptions.GetBucketByCategory LogStorage = some bucket)
    (hc : s.minioClient = true)
    (hput : ∀ k, env.putFault bucket.Name k = none)
    (files : List (LogFile × Bytes)) (st : Store)
    (hfresh : ∀ o ∈ st, o.Bucket = bucket.Name → ∀ fp ∈ files, o.Key ≠ fp.1.Path)
    (hdistinct : (files.map (fun fp => fp.1.Path)).Nodup) :
    uploadAll s (some lg) env st files =
      .done none (st ++ files.map (uploadedObject env bucket)) := by
  induction files generalizing st with
  | nil => simp [uploadAll]
  | cons fp rest ih =>
    obtain ⟨logFile, reader⟩ := fp
    have hup := UploadLogFile_accepted s lg env st bucket (logFile, reader) hb hc (hput _)
    have hsame : removeObject st bucket.Name logFile.Path = st := by
      apply removeObject_of_absent
      rintro o ho ⟨h1, h2⟩
      exact hfresh o ho h1 (logFile, reader) (List.mem_cons_self _ _) h2
    simp only [hsame] at hup
    simp only [uploadAll, hup]
    rw [List.map_cons, List.nodup_cons] at hdistinct
    rw [ih (st ++ [uploadedObject env bucket (logFile, reader)]) ?_ hdistinct.2]
    · simp
    · intro o ho hbk g hg
      rcases List.mem_append.mp ho with ho | ho
      · exact hfresh o ho hbk g (List.mem_cons_of_mem _ hg)
      · rw [List.mem_singleton] at ho
        subst ho
        intro hk
        exact hdistinct.1 (List.mem_map.mpr ⟨g, hg, hk.symm⟩)

theorem hasPrefix_empty (k : String) : hasPrefix k "" = true := by
  simp [hasPrefix]

theorem keysUnder_after_uploads (env : Env) (bucket : BucketOptions) (st : Store)
    (files : List (LogFile × Bytes)) (hempty : ∀ o ∈ st, o.Bucket ≠ bucket.Name) :
    keysUnder (st ++ files.map (uploadedObject env bucket)) bucket.Name "" =
      files.map (uploadedObject env bucket) := by
  unfold keysUnder
  rw [List.filter_append]
  have h1 : st.filter (fun o => decide (o.Bucket = bucket.Name) && hasPrefix o.Key "") = [] := by
    rw [List.filter_eq_nil_iff]
    intro o ho
    simp [hempty o ho]
  have h2 : (files.map (uploadedObject env bucket)).filter
      (fun o => decide (o.Bucket = bucket.Name) && hasPrefix o.Key "") =
      files.map (uploadedObject env bucket) := by
    rw [List.filter_eq_self]
    intro o ho
    obtain ⟨fp, _, rfl⟩ := List.mem_map.mp ho
    simp [uploadedObject, hasPrefix_empty]
  rw [h1, h2, List.nil_append]

theorem listLogLoop_clean (log : Option Logger) (listing : List ObjectInfo)
    (acc : List LogFile) (h : ∀ o ∈ listing, o.Err = none) :
    listLogLoop log listing acc =
      .ok (acc ++ listing.map
        (fun o => ⟨filepathBase o.Key, o.Key, o.Size, o.LastModified⟩)) := by
  induction listing generalizing acc with
  | nil => simp [listLogLoop]
  | cons o rest ih =>
    unfold listLogLoop
    rw [h o (List.mem_cons_self _ _)]
    simp only
    rw [ih _ (fun x hx => h x (List.mem_cons_of_mem _ hx))]
    simp

/-- C10: log upload and listing.  With the Logs bucket configured and empty,
the client and the package logger set, a store that accepts the writes and
whose listing does not fail, uploading files with pairwise distinct paths one
after the other succeeds, and `ListLogFiles` then returns as many entries as
files were uploaded: every uploaded file has an entry with its path, the base
name of its path and the byte length of its payload, and every entry is the
entry of an uploaded file. -/
theorem UploadLogFile_ListLogFiles_roundtrip (s : Storage) (lg : Logger) (env : Env)
    (st : Store) (files : List (LogFile × Bytes)) (bucket : BucketOptions)
    (hb : s.storageOptions.GetBucketByCategory LogStorage = some bucket)
    (hc : s.minioClient = true)
    (hempty : ∀ o ∈ st, o.Bucket ≠ bucket.Name)
    (hdistinct : (files.map (fun fp => fp.1.Path)).Nodup)
    (hput : ∀ k, env.putFault bucket.Name k = none)
    (hlist : ∀ k, env.listFault bucket.Name k = none) :
    ∃ st1 out,
      uploadAll s (some lg) env st files = .done none st1 ∧
      ListLogFiles s (some lg) env st1 = .ok out ∧
      out.length = files.length ∧
      (∀ fp ∈ files, ∃ e ∈ out,
        e.Path = fp.1.Path ∧ e.Name = filepathBase fp.1.Path ∧ e.Size = (fp.2.length : Int)) ∧
      (∀ e ∈ out, ∃ fp ∈ files,
        e.Path = fp.1.Path ∧ e.Name = filepathBase fp.1.Path ∧ e.Size = (fp.2.length : Int)) := by
  have hlisted : ListLogFiles s (some lg) env (st ++ files.map (uploadedObject env bucket)) =
      .ok (files.map (listedEntry env)) := by
    simp only [ListLogFiles, hb, hc, ListObjects_recursive_clean env _ bucket.Name "" hlist,
      keysUnder_after_uploads env bucket st files hempty]
    rw [if_neg (by simp), listLogLoop_clean]
    · simp [List.map_map, Function.comp_def, uploadedObject, listedEntry]
    · intro o ho
      simp only [List.map_map, List.mem_map] at ho
      obtain ⟨fp, _, rfl⟩ := ho
      rfl
  refine ⟨st ++ files.map (uploadedObject env bucket), files.map (listedEntry env),
    ?_, hlisted, by simp, ?_, ?_⟩
  · apply uploadAll_accepted s lg env bucket hb hc hput files st _ hdistinct
    intro o ho hbk
    exact absurd hbk (hempty o ho)
  · intro fp hfp
    exact ⟨listedEntry env fp, List.mem_map.mpr ⟨fp, hfp, rfl⟩, rfl, rfl, rfl⟩
  · intro e he
    obtain ⟨fp, hfp, rfl⟩ := List.mem_map.mp he
    exact ⟨fp, hfp, rfl, rfl, rfl⟩

/-- The witness of C10: two log files uploaded into the empty store. -/
theorem UploadLogFile_ListLogFiles_roundtrip_witness :
    ∃ st1 out,
      uploadAll sampleStorage (some Logger.New) quietEnv [] sampleLogs = .done none st1 ∧
      ListLogFiles sampleStorage (some Logger.New) quietEnv st1 = .ok out ∧
      out.length = sampleLogs.length ∧
      (∀ fp ∈ sampleLogs, ∃ e ∈ out,
        e.Path = fp.1.Path ∧ e.Name = filepathBase fp.1.Path ∧ e.Size = (fp.2.length : Int)) ∧
      (∀ e ∈ out, ∃ fp ∈ sampleLogs,
        e.Path = fp.1.Path ∧ e.Name = filepathBase fp.1.Path ∧ e.Size = (fp.2.length : Int)) :=
  UploadLogFile_ListLogFiles_roundtrip sampleStorage Logger.New quietEnv [] sampleLogs
    ⟨"logs", TextType, LogStorage⟩ (by decide) rfl (by simp) (by decide)
    (fun _ => rfl) (fun _ => rfl)

/-! ## Results with a flat ID, and the base name of a path -/

theorem addEntry_fold_mem (l : List ObjectInfo) (acc : List ObjectInfo) (e : ObjectInfo)
    (h : e ∈ acc ∨ e ∈ l) : ∃ e2 ∈ l.foldl addEntry acc, e2.Key = e.Key := by
  induction l generalizing acc e with
  | nil =>
    rcases h with h | h
    · exact ⟨e, h, rfl⟩
    · cases h
  | cons x xs ih =>
    rw [List.foldl_cons]
    by_cases hx : acc.any (fun y => decide (y.Key = x.Key)) = true
    · have hadd : addEntry acc x = acc := by simp only [addEntry, hx, if_true]
      rw [hadd]
      rcases h with h | h
      · exact ih acc e (Or.inl h)
      · rcases List.mem_cons.mp h with heq | h
        · obtain ⟨y, hy, hk⟩ := List.any_eq_true.mp hx
          obtain ⟨e2, he2, hk2⟩ := ih acc y (Or.inl hy)
          refine ⟨e2, he2, ?_⟩
          rw [hk2, heq]
          simpa using hk
        · exact ih acc e (Or.inr h)
    · have hadd : addEntry acc x = acc ++ [x] := by
        simp only [addEntry, hx]
        rfl
      rw [hadd]
      rcases h with h | h
      · exact ih _ e (Or.inl (List.mem_append_left _ h))
      · rcases List.mem_cons.mp h with heq | h
        · exact ih _ e (Or.inl (List.mem_append_right _ (List.mem_singleton.mpr heq)))
        · exact ih _ e (Or.inr h)

theorem addEntry_fold_sub (l : List ObjectInfo) (acc : List ObjectInfo) (e : ObjectInfo)
    (h : e ∈ l.foldl addEntry acc) : e ∈ acc ∨ e ∈ l := by
  induction l generalizing acc with
  | nil => exact Or.inl h
  | cons x xs ih =>
    rw [List.foldl_cons] at h
    rcases ih _ h with h1 | h1
    · unfold addEntry at h1
      split at h1
      · exact Or.inl h1
      · rcases List.mem_append.mp h1 with h2 | h2
        · exact Or.inl h2
        · exact Or.inr (by rw [List.mem_singleton.mp h2]; exact List.mem_cons_self _ _)
    · exact Or.inr (List.mem_cons_of_mem _ h1)

theorem jobResultsLoop_logged (lg : Logger) (env : Env) (st : Store) (b : String)
    (listing : List ObjectInfo) (acc : List Result) :
    jobResultsLoop (some lg) env st b listing acc =
      .ok (acc ++ listing.filterMap (fun o =>
        match fetchResult env st b o with
        | .ok r => some r
        | .error _ => none)) := by
  induction listing generalizing acc with
  | nil => simp [jobResultsLoop]
  | cons o rest ih =>
    unfold jobResultsLoop
    cases hf : fetchResult env st b o with
    | error e => simp [logThen, ih, List.filterMap_cons, hf]
    | ok r => simp [ih, List.filterMap_cons, hf]

theorem resultKey_data (jobID id : String) :
    (jobID ++ "/result_" ++ id ++ ".json").data =
      (jobID ++ "/").data ++ ("result_".data ++ (id.data ++ ".json".data)) := by
  simp only [String.data_append, List.append_assoc]
  rfl

theorem delimitedEntry_flat (jobID id : String) (o : StoredObject)
    (hk : o.Key = jobID ++ "/result_" ++ id ++ ".json") (hid : '/' ∉ id.data) :
    delimitedEntry (jobID ++ "/") o = ⟨o.Key, (o.Data.length : Int), o.LastModified, [], none⟩ := by
  have hrest : o.Key.data.drop (jobID ++ "/").data.length =
      "result_".data ++ (id.data ++ ".json".data) := by
    rw [hk, resultKey_data, List.drop_left]
  have hno : commonDir ("result_".data ++ (id.data ++ ".json".data)) = none := by
    unfold commonDir
    rw [if_neg]
    simp [hid]
  simp only [delimitedEntry, hrest, hno]

theorem GetJobResults_logged (s : Storage) (lg : Logger) (env : Env) (st : Store)
    (jobID : String) (bucket : BucketOptions)
    (hb : s.storageOptions.GetBucketByCategory ResultStorage = some bucket)
    (hc : s.minioClient = true) :
    GetJobResults s (some lg) env st jobID =
      .ok ((ListObjects env st bucket.Name (jobID ++ "/") false).filterMap (fun o =>
        match fetchResult env st bucket.Name o with
        | .ok r => some r
        | .error _ => none)) := by
  simp only [GetJobResults, hb, hc]
  rw [if_neg (by simp), jobResultsLoop_logged, List.nil_append]

/-- The round trip of a result whose ID has no slash in it, for a codec that
reads back what it wrote for this result: `GetJobResults` returns it. -/
theorem StoreResult_GetJobResults_flat_id (s : Storage) (lg : Logger) (env : Env) (st : Store)
    (r : Result) (bucket : BucketOptions) (data : Bytes)
    (hb : s.storageOptions.GetBucketByCategory ResultStorage = some bucket)
    (hc : s.minioClient = true)
    (hid : '/' ∉ r.ID.data)
    (hm : env.marshal r = .ok data) (hd : env.decode data = .ok r)
    (hput : env.putFault bucket.Name (r.JobID ++ "/result_" ++ r.ID ++ ".json") = none)
    (hlist : ∀ k, env.listFault bucket.Name k = none)
    (hget : env.getFault bucket.Name (r.JobID ++ "/result_" ++ r.ID ++ ".json") = none)
    (hread : env.readFault bucket.Name (r.JobID ++ "/result_" ++ r.ID ++ ".json") = none) :
    ∃ st1 out,
      StoreResult s (some lg) env st r = .done none st1 ∧
      GetJobResults s (some lg) env st1 r.JobID = .ok out ∧ r ∈ out := by
  have hneg : ¬ ((0 : Int) ≤ (data.length : Int) ∧ (data.length : Int) ≠ (data.length : Int)) :=
    fun h => h.2 rfl
  have hstore : StoreResult s (some lg) env st r =
      .done none (removeObject st bucket.Name (r.JobID ++ "/result_" ++ r.ID ++ ".json") ++
        [⟨bucket.Name, r.JobID ++ "/result_" ++ r.ID ++ ".json", data, "application/json",
          [("job_id", r.JobID), ("chunk_id", r.ChunkID)], env.now⟩]) := by
    simp only [StoreResult, hm, hb, hc, PutObject, hput, if_neg hneg]
    rfl
  have hpre : hasPrefix (r.JobID ++ "/result_" ++ r.ID ++ ".json") (r.JobID ++ "/") = true := by
    unfold hasPrefix
    rw [resultKey_data]
    simp
  have hmem : (⟨bucket.Name, r.JobID ++ "/result_" ++ r.ID ++ ".json", data,
      "application/json", [("job_id", r.JobID), ("chunk_id", r.ChunkID)], env.now⟩ :
        StoredObject) ∈
      keysUnder (removeObject st bucket.Name (r.JobID ++ "/result_" ++ r.ID ++ ".json") ++
        [⟨bucket.Name, r.JobID ++ "/result_" ++ r.ID ++ ".json", data, "application/json",
          [("job_id", r.JobID), ("chunk_id", r.ChunkID)], env.now⟩]) bucket.Name
        (r.JobID ++ "/") := by
    rw [keysUnder, List.mem_filter]
    exact ⟨List.mem_append_right _ (List.mem_singleton.mpr rfl), by simp [hpre]⟩
  refine ⟨_, _, hstore, GetJobResults_logged s lg env _ r.JobID bucket hb hc, ?_⟩
  · rw [List.mem_filterMap]
    obtain ⟨e2, he2, hk2⟩ := addEntry_fold_mem _ [] _
      (Or.inr (List.mem_map.mpr ⟨_, hmem, delimitedEntry_flat r.JobID r.ID _ rfl hid⟩))
    have herr : e2.Err = none := by
      rcases addEntry_fold_sub _ _ _ he2 with h | h
      · cases h
      · obtain ⟨o, _, rfl⟩ := List.mem_map.mp h
        unfold delimitedEntry
        split <;> rfl
    refine ⟨e2, ?_, ?_⟩
    · unfold ListObjects
      simp only [Bool.false_eq_true, if_false, hlist, List.map_id']
      exact he2
    · simp only at hk2
      simp only [fetchResult, herr, hk2, hget, readObject, hread, lookup_after_put, hd]

theorem takeWhile_until (p : Char → Bool) (l r : List Char) (x : Char)
    (hl : ∀ c ∈ l, p c = true) (hx : p x = false) : (l ++ x :: r).takeWhile p = l := by
  induction l with
  | nil => simp [List.takeWhile, hx]
  | cons c t ih =>
    rw [List.cons_append, List.takeWhile_cons, hl c (List.mem_cons_self _ _)]
    simp only [if_true]
    rw [ih (fun d hd => hl d (List.mem_cons_of_mem _ hd))]

/-- The base name of a path that ends in a non-empty name without a slash is
that name: the final path segment. -/
theorem filepathBase_last_segment (dir name : String) (hne : name.data ≠ [])
    (hns : '/' ∉ name.data) : filepathBase (dir ++ "/" ++ name) = name := by
  have hdata : (dir ++ "/" ++ name).data = dir.data ++ '/' :: name.data := by
    simp only [String.data_append, List.append_assoc]
    rfl
  have hrev : (dir ++ "/" ++ name).data.reverse = name.data.reverse ++ '/' :: dir.data.reverse := by
    rw [hdata]
    simp
  have hnr : ∀ c ∈ name.data.reverse, (c != '/') = true := by
    intro c hc
    rw [List.mem_reverse] at hc
    simp only [bne_iff_ne, ne_eq]
    rintro rfl
    exact hns hc
  obtain ⟨c, t, hct⟩ : ∃ c t, name.data.reverse = c :: t := by
    cases h : name.data.reverse with
    | nil => exact absurd (List.reverse_eq_nil_iff.mp h) hne
    | cons c t => exact ⟨c, t, rfl⟩
  have hc : (c == '/') = false := by
    have := hnr c (by rw [hct]; exact List.mem_cons_self _ _)
    simpa using this
  have hdrop : ((dir ++ "/" ++ name).data.reverse.dropWhile (fun c => c == '/')) =
      name.data.reverse ++ '/' :: dir.data.reverse := by
    rw [hrev, hct, List.cons_append, List.dropWhile_cons]
    simp only [hc]
    rfl
  have htake : ((name.data.reverse ++ '/' :: dir.data.reverse).takeWhile (fun c => c != '/')) =
      name.data.reverse := takeWhile_until _ _ _ _ hnr (by simp)
  unfold filepathBase
  rw [if_neg (by rw [hdata]; simp)]
  simp only [hdrop, htake, List.reverse_reverse]
  rw [if_neg hne]

/-! ## Best-effort enumeration -/

theorem listLogLoop_logged (lg : Logger) (listing : List ObjectInfo) (acc : List LogFile) :
    listLogLoop (some lg) listing acc =
      .ok (acc ++ (listing.filter (fun o => o.Err.isNone)).map logFileOf) := by
  induction listing generalizing acc with
  | nil => simp [listLogLoop]
  | cons o rest ih =>
    unfold listLogLoop
    cases ho : o.Err with
    | some e => simp [logThen, ih, List.filter_cons, ho]
    | none => simp [ih, List.filter_cons, ho, logFileOf]

theorem listLogLoop_never_error (log : Option Logger) (listing : List ObjectInfo)
    (acc : List LogFile) (msg : String) : listLogLoop log listing acc ≠ .error msg := by
  induction listing generalizing acc with
  | nil => simp [listLogLoop]
  | cons o rest ih =>
    unfold listLogLoop
    cases o.Err with
    | some e =>
      cases log with
      | none => simp [logThen]
      | some lg => exact ih acc
    | none => exact ih _

theorem jobResultsLoop_never_error (log : Option Logger) (env : Env) (st : Store) (b : String)
    (listing : List ObjectInfo) (acc : List Result) (msg : String) :
    jobResultsLoop log env st b listing acc ≠ .error msg := by
  induction listing generalizing acc with
  | nil => simp [jobResultsLoop]
  | cons o rest ih =>
    unfold jobResultsLoop
    cases fetchResult env st b o with
    | error e =>
      cases log with
      | none => simp [logThen]
      | some lg => exact ih acc
    | ok r => exact ih _

theorem ListLogFiles_never_error (s : Storage) (log : Option Logger) (env : Env) (st : Store)
    (msg : String) : ListLogFiles s log env st ≠ .error msg := by
  unfold ListLogFiles
  split
  · simp
  · split
    · simp
    · exact listLogLoop_never_error _ _ _ _

theorem GetJobResults_never_error (s : Storage) (log : Option Logger) (env : Env) (st : Store)
    (jobID : String) (msg : String) : GetJobResults s log env st jobID ≠ .error msg := by
  unfold GetJobResults
  split
  · simp
  · split
    · simp
    · exact jobResultsLoop_never_error _ _ _ _ _ _ _

theorem fetchResult_resultOf (env : Env) (st : Store) (b : String) (o : ObjectInfo) :
    (match fetchResult env st b o with
      | .ok r => some r
      | .error _ => none) = resultOf env st b o := by
  unfold fetchResult resultOf readObject
  cases o.Err with
  | some e => rfl
  | none =>
    cases env.getFault b o.Key with
    | some e => rfl
    | none =>
      cases env.readFault b o.Key with
      | some e => rfl
      | none =>
        cases lookupObject st b o.Key with
        | none => rfl
        | some obj =>
          simp only [Option.isSome_none, Bool.false_eq_true, if_false]

theorem resultOf_some_iff (env : Env) (st : Store) (b : String) (o : ObjectInfo) (r : Result) :
    resultOf env st b o = some r ↔
      o.Err = none ∧ env.getFault b o.Key = none ∧ env.readFault b o.Key = none ∧
        ∃ obj, lookupObject st b o.Key = some obj ∧ env.decode obj.Data = .ok r := by
  unfold resultOf
  cases o.Err with
  | some e => simp
  | none =>
    cases env.getFault b o.Key with
    | some e => simp
    | none =>
      cases env.readFault b o.Key with
      | some e => simp
      | none =>
        cases lookupObject st b o.Key with
        | none => simp
        | some obj =>
          cases hd : env.decode obj.Data with
          | error msg => simp [hd]
          | ok r2 => simp [hd]

theorem resultOf_of_fails (env : Env) (st : Store) (b : String) (o : ObjectInfo)
    (h : itemFails env st b o) : resultOf env st b o = none := by
  cases hr : resultOf env st b o with
  | none => rfl
  | some r =>
    obtain ⟨h1, h2, h3, obj, h4, h5⟩ := (resultOf_some_iff env st b o r).mp hr
    rcases h with h | h | h | h | ⟨obj2, msg, h6, h7⟩
    · exact absurd h1 h
    · exact absurd h2 h
    · exact absurd h3 h
    · rw [h4] at h
      cases h
    · rw [h4] at h6
      cases h6
      rw [h5] at h7
      cases h7

/-- C11: best-effort enumeration.  `ListLogFiles` and `GetJobResults` return
an error for no input at all.  With the package logger set, their loops turn
every listing sequence into exactly its successful items, in listing order:
for log files, the items whose listing carries no error, each with the base
name of its key, its key, size and modification time; for results, the
decoded payloads of the items that are listed without error, fetched without
a fault from a key that exists, and decodable.  An item whose listing, fetch
or decoding failed contributes nothing; the length of the returned sequence is
the number of successful items.  With the bucket configured and the client
set, the methods return what their loop makes of the store's listing. -/
theorem enumeration_best_effort (s : Storage) (lg : Logger) (env : Env) (st : Store)
    (jobID : String) (logs results : BucketOptions)
    (hbl : s.storageOptions.GetBucketByCategory LogStorage = some logs)
    (hbr : s.storageOptions.GetBucketByCategory ResultStorage = some results)
    (hc : s.minioClient = true) :
    (∀ log msg, ListLogFiles s log env st ≠ .error msg) ∧
    (∀ log msg, GetJobResults s log env st jobID ≠ .error msg) ∧
    (∀ listing : List ObjectInfo, ∃ out,
      listLogLoop (some lg) listing [] = .ok out ∧
      out = (listing.filter (fun o => o.Err.isNone)).map
        (fun o => ⟨filepathBase o.Key, o.Key, o.Size, o.LastModified⟩) ∧
      out.length = listing.countP (fun o => o.Err.isNone)) ∧
    (∀ listing : List ObjectInfo, ∃ out,
      jobResultsLoop (some lg) env st results.Name listing [] = .ok out ∧
      out = listing.filterMap (resultOf env st results.Name) ∧
      out.length = listing.countP (fun o => (resultOf env st results.Name o).isSome) ∧
      (∀ r, r ∈ out ↔ ∃ o ∈ listing,
        o.Err = none ∧ env.getFault results.Name o.Key = none ∧
        env.readFault results.Name o.Key = none ∧
        ∃ obj, lookupObject st results.Name o.Key = some obj ∧
          env.decode obj.Data = .ok r)) ∧
    (∀ o, itemFails env st results.Name o → resultOf env st results.Name o = none) ∧
    ListLogFiles s (some lg) env st =
      .ok (((ListObjects env st logs.Name "" true).filter (fun o => o.Err.isNone)).map
        (fun o => ⟨filepathBase o.Key, o.Key, o.Size, o.LastModified⟩)) ∧
    GetJobResults s (some lg) env st jobID =
      .ok ((ListObjects env st results.Name (jobID ++ "/") false).filterMap
        (resultOf env st results.Name)) := by
  have hstep : (fun o =>
      match fetchResult env st results.Name o with
      | .ok r => some r
      | .error _ => none) = resultOf env st results.Name :=
    funext (fetchResult_resultOf env st results.Name)
  refine ⟨fun log msg => ListLogFiles_never_error s log env st msg,
    fun log msg => GetJobResults_never_error s log env st jobID msg, ?_, ?_,
    resultOf_of_fails env st results.Name, ?_, ?_⟩
  · intro listing
    refine ⟨_, ?_, rfl, ?_⟩
    · rw [listLogLoop_logged, List.nil_append]
      rfl
    · rw [List.length_map, List.countP_eq_length_filter]
  · intro listing
    refine ⟨listing.filterMap (resultOf env st results.Name), ?_, rfl, ?_, ?_⟩
    · rw [jobResultsLoop_logged, List.nil_append, hstep]
    · rw [List.length_filterMap_eq_countP]
    · intro r
      rw [List.mem_filterMap]
      constructor
      · rintro ⟨o, ho, hr⟩
        exact ⟨o, ho, (resultOf_some_iff env st results.Name o r).mp hr⟩
      · rintro ⟨o, ho, hr⟩
        exact ⟨o, ho, (resultOf_some_iff env st results.Name o r).mpr hr⟩
  · simp only [ListLogFiles, hbl, hc]
    rw [if_neg (by simp), listLogLoop_logged, List.nil_append]
    rfl
  · rw [GetJobResults_logged s lg env st jobID results hbr hc, hstep]

/-- The witness of C11: four result objects, of which one cannot be listed,
one cannot be fetched and one cannot be decoded, and two log files, of which
one cannot be listed. -/
theorem enumeration_best_effort_witness :
    GetJobResults sampleStorage (some Logger.New) patchyEnv patchyStore "j1" =
      .ok [⟨"r1", "j1", "c1", [], 0, 0, 0, 2⟩] ∧
    ListLogFiles sampleStorage (some Logger.New) patchyEnv patchyStore =
      .ok [⟨"app.log", "service1/app.log", 2, 7⟩] :=
  have h := enumeration_best_effort sampleStorage Logger.New patchyEnv patchyStore "j1"
    ⟨"logs", TextType, LogStorage⟩ ⟨"results", JSONType, ResultStorage⟩
    (by decide) (by decide) rfl
  ⟨h.2.2.2.2.2.2.trans (by decide), h.2.2.2.2.2.1.trans (by decide)⟩

/-! ## Absent categories -/

theorem absent_bucket_panics (s : Storage) (log : Option Logger) (env : Env) (st : Store) :
    (s.storageOptions.GetBucketByCategory LogStorage = none →
      (∀ logFile reader, UploadLogFile s log env st logFile reader = .panic) ∧
      ListLogFiles s log env st = .panic) ∧
    (s.storageOptions.GetBucketByCategory ChunkStorage = none →
      (∀ chunk reader, StoreChunk s log env st chunk reader = .panic) ∧
      (∀ jobID chunkID, GetChunk s env st jobID chunkID = .panic) ∧
      (∀ jobID, DeleteJob s log env st jobID = .panic)) ∧
    (s.storageOptions.GetBucketByCategory ResultStorage = none →
      (∀ result data, env.marshal result = .ok data →
        StoreResult s log env st result = .panic) ∧
      (∀ jobID, GetJobResults s log env st jobID = .panic)) := by
  refine ⟨fun h => ⟨fun _ _ => ?_, ?_⟩, fun h => ⟨fun _ _ => ?_, fun _ _ => ?_, fun _ => ?_⟩,
    fun h => ⟨fun _ _ hm => ?_, fun _ => ?_⟩⟩
  · simp only [UploadLogFile, h]
  · simp only [ListLogFiles, h]
  · simp only [StoreChunk, h]
  · simp only [GetChunk, h]
  · simp only [DeleteJob, deleteJobObjects, h]
  · simp only [StoreResult, hm, h]
  · simp only [GetJobResults, h]

/-- C12: the configurations of the repository's tests are accepted by
`Validate` and lack categories; the lookup of an absent category returns nil,
and every storage operation that resolves it panics on the nil bucket instead
of returning an error. -/
theorem absent_category_panics :
    logsOnlyOptions.Validate = none ∧ chunksOnlyOptions.Validate = none ∧
    logsOnlyOptions.GetBucketByCategory ChunkStorage = none ∧
    logsOnlyOptions.GetBucketByCategory ResultStorage = none ∧
    chunksOnlyOptions.GetBucketByCategory LogStorage = none ∧
    UploadLogFile chunksOnlyStorage (some Logger.New) quietEnv []
      ⟨"app.log", "service1/app.log", 2, 0⟩ [65, 10] = .panic ∧
    ListLogFiles chunksOnlyStorage (some Logger.New) quietEnv [] = .panic ∧
    StoreChunk logsOnlyStorage (some Logger.New) quietEnv []
      ⟨"chunk1", "job123", "service1/app.log", 0, 3, 3, 0, 0, 0⟩ [10, 20, 30] = .panic ∧
    GetChunk logsOnlyStorage quietEnv [] "job123" "chunk1" = .panic ∧
    StoreResult logsOnlyStorage (some Logger.New) quietEnv []
      ⟨"r1", "job123", "chunk1", [], 0, 0, 0, 2⟩ = .panic ∧
    GetJobResults logsOnlyStorage (some Logger.New) quietEnv [] "job123" = .panic ∧
    DeleteJob logsOnlyStorage (some Logger.New) quietEnv [] "job123" = .panic := by
  decide

/-! ## What DeleteJob leaves alone -/

theorem deleteJobObjects_done_bucket (s : Storage) (log : Option Logger) (env : Env)
    (st : Store) (category : StorageCategory) (jobID : String) (err : Option String)
    (st1 : Store) (h : deleteJobObjects s log env st category jobID = .done err st1) :
    ∃ bucket, s.storageOptions.GetBucketByCategory category = some bucket ∧
      st1 = removalStore env st bucket.Name jobID := by
  cases hb : s.storageOptions.GetBucketByCategory category with
  | none =>
    simp only [deleteJobObjects, hb] at h
    cases h
  | some bucket =>
    exact ⟨bucket, rfl, deleteJobObjects_store s log env st category jobID bucket hb err st1 h⟩

theorem removalStore_other_bucket (env : Env) (st : Store) (b jobID other : String)
    (hne : b ≠ other) :
    (removalStore env st b jobID).filter (fun o => decide (o.Bucket = other)) =
      st.filter (fun o => decide (o.Bucket = other)) := by
  rw [removalStore, RemoveObjects_store, List.filter_filter]
  apply List.filter_congr
  intro o _
  by_cases ho : o.Bucket = other
  · have hb : ¬ other = b := fun h => hne h.symm
    simp [ho, hb]
  · simp [ho]

theorem DeleteJob_done_stores (s : Storage) (log : Option Logger) (env : Env) (st : Store)
    (jobID : String) (err : Option String) (st1 : Store)
    (h : DeleteJob s log env st jobID = .done err st1) :
    ∃ chunks, s.storageOptions.GetBucketByCategory ChunkStorage = some chunks ∧
      (st1 = removalStore env st chunks.Name jobID ∨
        ∃ results, s.storageOptions.GetBucketByCategory ResultStorage = some results ∧
          st1 = removalStore env (removalStore env st chunks.Name jobID) results.Name jobID) := by
  unfold DeleteJob at h
  split at h
  · cases h
  · rename_i e st0 h0
    cases h
    obtain ⟨chunks, hb, hst⟩ := deleteJobObjects_done_bucket s log env st _ jobID _ _ h0
    exact ⟨chunks, hb, Or.inl hst⟩
  · rename_i st0 h0
    obtain ⟨chunks, hb, hst⟩ := deleteJobObjects_done_bucket s log env st _ jobID _ _ h0
    refine ⟨chunks, hb, Or.inr ?_⟩
    split at h
    · cases h
    · rename_i e st2 h2
      cases h
      obtain ⟨results, hbr, hst2⟩ := deleteJobObjects_done_bucket s log env st0 _ jobID _ _ h2
      exact ⟨results, hbr, by rw [hst2, hst]⟩
    · rename_i st2 h2
      cases h
      obtain ⟨results, hbr, hst2⟩ := deleteJobObjects_done_bucket s log env st0 _ jobID _ _ h2
      exact ⟨results, hbr, by rw [hst2, hst]⟩

/-- C13, as stated, fails: a configuration that routes Logs, Chunks and
Results to one bucket is accepted by `Validate`, and `DeleteJob` for the job
ID `service1` then removes the log object `service1/app.log`. -/
theorem DeleteJob_removes_log_in_shared_bucket :
    sharedOptions.Validate = none ∧
    sharedOptions.GetBucketByCategory LogStorage = some ⟨"data", TextType, LogStorage⟩ ∧
    DeleteJob sharedStorage (some Logger.New) quietEnv
      [⟨"data", "service1/app.log", [65, 10], "text/plain", [], 7⟩] "service1" =
      .done none [] := by
  decide

/-- C13, amended: when the bucket resolved for Logs has another name than the
buckets resolved for Chunks and for Results, a `DeleteJob` that returns, with
or without an error, leaves the objects of the Logs bucket as they were. -/
theorem DeleteJob_keeps_logs (s : Storage) (log : Option Logger) (env : Env) (st : Store)
    (jobID : String) (logs : BucketOptions) (err : Option String) (st1 : Store)
    (hbl : s.storageOptions.GetBucketByCategory LogStorage = some logs)
    (hnc : ∀ b, s.storageOptions.GetBucketByCategory ChunkStorage = some b → b.Name ≠ logs.Name)
    (hnr : ∀ b, s.storageOptions.GetBucketByCategory ResultStorage = some b →
      b.Name ≠ logs.Name)
    (h : DeleteJob s log env st jobID = .done err st1) :
    st1.filter (fun o => decide (o.Bucket = logs.Name)) =
      st.filter (fun o => decide (o.Bucket = logs.Name)) := by
  have _hl := hbl
  obtain ⟨chunks, hbc, hst⟩ := DeleteJob_done_stores s log env st jobID err st1 h
  rcases hst with hst | ⟨results, hbr, hst⟩
  · rw [hst, removalStore_other_bucket env st chunks.Name jobID logs.Name (hnc chunks hbc)]
  · rw [hst, removalStore_other_bucket env _ results.Name jobID logs.Name (hnr results hbr),
      removalStore_other_bucket env st chunks.Name jobID logs.Name (hnc chunks hbc)]

/-- The witness of C13 amended: the three-bucket configuration, a log object
and a chunk under the same directory name. -/
theorem DeleteJob_keeps_logs_witness :
    List.filter (fun o => decide (o.Bucket = "logs"))
        [(⟨"logs", "j1/app.log", [65, 10], "text/plain", [], 7⟩ : StoredObject)] =
      List.filter (fun o => decide (o.Bucket = "logs"))
        [⟨"logs", "j1/app.log", [65, 10], "text/plain", [], 7⟩,
         ⟨"chunks", "j1/chunk_c1", [10, 20, 30], "text/plain", [], 7⟩] :=
  DeleteJob_keeps_logs sampleStorage (some Logger.New) quietEnv
    [⟨"logs", "j1/app.log", [65, 10], "text/plain", [], 7⟩,
     ⟨"chunks", "j1/chunk_c1", [10, 20, 30], "text/plain", [], 7⟩] "j1"
    ⟨"logs", TextType, LogStorage⟩ none
    [⟨"logs", "j1/app.log", [65, 10], "text/plain", [], 7⟩] (by decide)
    (by intro b hb; cases hb; decide) (by intro b hb; cases hb; decide) (by decide)

/-! ## Job scope -/

theorem slash_split_unique (l1 l2 r1 r2 : List Char) (h1 : '/' ∉ l1) (h2 : '/' ∉ l2)
    (h : l1 ++ '/' :: r1 = l2 ++ '/' :: r2) : l1 = l2 := by
  induction l1 generalizing l2 with
  | nil =>
    cases l2 with
    | nil => rfl
    | cons c t =>
      simp only [List.nil_append, List.cons_append, List.cons.injEq] at h
      exact absurd (h.1 ▸ List.mem_cons_self _ _) h2
  | cons a t ih =>
    cases l2 with
    | nil =>
      simp only [List.nil_append, List.cons_append, List.cons.injEq] at h
      exact absurd (h.1 ▸ List.mem_cons_self _ _) h1
    | cons c u =>
      simp only [List.cons_append, List.cons.injEq] at h
      rw [h.1, ih u (fun hm => h1 (List.mem_cons_of_mem _ hm))
        (fun hm => h2 (List.mem_cons_of_mem _ hm)) h.2]

theorem hasPrefix_iff (k pfx : String) :
    hasPrefix k pfx = true ↔ ∃ r, k.data = pfx.data ++ r := by
  unfold hasPrefix
  rw [List.isPrefixOf_iff_prefix]
  constructor
  · rintro ⟨r, hr⟩
    exact ⟨r, hr.symm⟩
  · rintro ⟨r, hr⟩
    exact ⟨r, hr.symm⟩

theorem chunkKey_data (jobID id : String) :
    (chunkKey jobID id).data = jobID.data ++ '/' :: ("chunk_".data ++ id.data) := by
  simp only [chunkKey, String.data_append, List.append_assoc]
  rfl

theorem resultKey_data2 (jobID id : String) :
    (resultKey jobID id).data =
      jobID.data ++ '/' :: ("result_".data ++ (id.data ++ ".json".data)) := by
  simp only [resultKey, String.data_append, List.append_assoc]
  rfl

theorem jobDir_data (jobID : String) : (jobID ++ "/").data = jobID.data ++ ['/'] := by
  simp only [String.data_append]

theorem key_outside_other_job (j1 j2 : String) (hne : j1 ≠ j2) (h1 : '/' ∉ j1.data)
    (h2 : '/' ∉ j2.data) (k : String) (t : List Char) (hk : k.data = j2.data ++ '/' :: t) :
    hasPrefix k (j1 ++ "/") = false := by
  cases hp : hasPrefix k (j1 ++ "/") with
  | false => rfl
  | true =>
    obtain ⟨r, hr⟩ := (hasPrefix_iff _ _).mp hp
    rw [hk, jobDir_data, List.append_assoc, List.singleton_append] at hr
    exact absurd (String.ext (slash_split_unique _ _ _ _ h1 h2 hr.symm)) hne

theorem hasPrefix_append (pfx rest : String) : hasPrefix (pfx ++ rest) pfx = true := by
  rw [hasPrefix_iff]
  exact ⟨rest.data, String.data_append _ _⟩

theorem listing_keys_under (env : Env) (st : Store) (b pfx : String) (recursive : Bool)
    (e : ObjectInfo) (he : e ∈ ListObjects env st b pfx recursive) (herr : e.Err = none) :
    hasPrefix e.Key pfx = true := by
  unfold ListObjects at he
  simp only [List.mem_map] at he
  obtain ⟨e0, he0, hmap⟩ := he
  have hsame : e = e0 := by
    cases hf : env.listFault b e0.Key with
    | some err =>
      rw [hf] at hmap
      rw [← hmap] at herr
      cases herr
    | none =>
      rw [hf] at hmap
      exact hmap.symm
  rw [hsame]
  have hunder : ∀ o ∈ keysUnder st b pfx, hasPrefix o.Key pfx = true := by
    intro o ho
    rw [keysUnder, List.mem_filter] at ho
    have := ho.2
    simp only [Bool.and_eq_true] at this
    exact this.2
  cases recursive with
  | true =>
    simp only [if_true, List.mem_map] at he0
    obtain ⟨o, ho, rfl⟩ := he0
    exact hunder o ho
  | false =>
    simp only [Bool.false_eq_true, if_false] at he0
    rcases addEntry_fold_sub _ _ _ he0 with h | h
    · cases h
    · obtain ⟨o, ho, rfl⟩ := List.mem_map.mp h
      unfold delimitedEntry
      split
      · exact hasPrefix_append _ _
      · exact hunder o ho

theorem removalStore_keeps (env : Env) (st : Store) (b jobID : String) (o : StoredObject)
    (ho : o ∈ st) (hout : hasPrefix o.Key (jobID ++ "/") = false) :
    o ∈ removalStore env st b jobID := by
  rw [removalStore, RemoveObjects_store, List.mem_filter]
  refine ⟨ho, ?_⟩
  have hany : (List.filter (fun o => o.Err.isNone)
      (ListObjects env st b (jobID ++ "/") true)).any
        (fun x => decide (x.Key = o.Key) && (env.removeFault b x.Key).isNone) = false := by
    rw [List.any_eq_false]
    intro x hx hk
    rw [List.mem_filter] at hx
    have herr : x.Err = none := by
      have := hx.2
      simpa using this
    have hp := listing_keys_under env st b _ true x hx.1 herr
    simp only [Bool.and_eq_true, decide_eq_true_eq] at hk
    rw [hk.1, hout] at hp
    cases hp
  rw [hany]
  simp

theorem jobResultsLoop_sources (log : Option Logger) (env : Env) (st : Store) (b : String)
    (listing : List ObjectInfo) (acc out : List Result)
    (h : jobResultsLoop log env st b listing acc = .ok out) :
    ∀ r ∈ out, r ∈ acc ∨ ∃ e ∈ listing, fetchResult env st b e = .ok r := by
  induction listing generalizing acc with
  | nil =>
    simp only [jobResultsLoop, Ret.ok.injEq] at h
    intro r hr
    exact Or.inl (h ▸ hr)
  | cons e rest ih =>
    unfold jobResultsLoop at h
    intro r hr
    cases hf : fetchResult env st b e with
    | error msg =>
      rw [hf] at h
      cases log with
      | none => simp [logThen] at h
      | some lg =>
        rcases ih acc h r hr with h1 | ⟨e2, he2, hr2⟩
        · exact Or.inl h1
        · exact Or.inr ⟨e2, List.mem_cons_of_mem _ he2, hr2⟩
    | ok r0 =>
      rw [hf] at h
      rcases ih _ h r hr with h1 | ⟨e2, he2, hr2⟩
      · rcases List.mem_append.mp h1 with h2 | h2
        · exact Or.inl h2
        · rw [List.mem_singleton] at h2
          exact Or.inr ⟨e, List.mem_cons_self _ _, by rw [hf, h2]⟩
      · exact Or.inr ⟨e2, List.mem_cons_of_mem _ he2, hr2⟩

theorem fetchResult_source (env : Env) (st : Store) (b : String) (e : ObjectInfo) (r : Result)
    (h : fetchResult env st b e = .ok r) :
    e.Err = none ∧ ∃ o ∈ st, o.Bucket = b ∧ o.Key = e.Key ∧ env.decode o.Data = .ok r := by
  unfold fetchResult at h
  split at h
  · cases h
  · rename_i herr
    refine ⟨herr, ?_⟩
    split at h
    · cases h
    · split at h
      · cases h
      · rename_i o hread
        unfold readObject at hread
        split at hread
        · cases hread
        · split at hread
          · cases hread
          · rename_i o2 hl
            cases hread
            have hm := List.mem_of_find?_eq_some hl
            have hp := List.find?_some hl
            simp only [decide_eq_true_eq] at hp
            exact ⟨o, hm, hp.1, hp.2, h⟩

theorem find_filter_of_imp {α : Type} (p q : α → Bool) (l : List α)
    (h : ∀ x, p x = true → q x = true) : (l.filter q).find? p = l.find? p := by
  induction l with
  | nil => rfl
  | cons x xs ih =>
    by_cases hq : q x = true
    · rw [List.filter_cons_of_pos hq, List.find?_cons, List.find?_cons, ih]
    · rw [List.filter_cons_of_neg hq, ih]
      have hp : ¬ p x = true := fun hp => hq (h x hp)
      rw [List.find?_cons_of_neg _ hp]

theorem PutObject_writes (env : Env) (st : Store) (b k : String) (d : Bytes) (size : Int)
    (ct : String) (m : List (String × String)) (err : Option String) (st1 : Store)
    (h : PutObject env st b k d size ct m = (err, st1)) :
    (∀ o ∈ st1, o ∈ st ∨ (o.Bucket = b ∧ o.Key = k)) ∧
    (∀ b2 k2, k2 ≠ k → lookupObject st1 b2 k2 = lookupObject st b2 k2) := by
  unfold PutObject at h
  split at h
  · cases h
    exact ⟨fun o ho => Or.inl ho, fun _ _ _ => rfl⟩
  · split at h
    · cases h
      exact ⟨fun o ho => Or.inl ho, fun _ _ _ => rfl⟩
    · cases h
      constructor
      · intro o ho
        rcases List.mem_append.mp ho with h1 | h1
        · exact Or.inl (List.mem_filter.mp h1).1
        · rw [List.mem_singleton] at h1
          exact Or.inr ⟨by rw [h1], by rw [h1]⟩
      · intro b2 k2 hk
        unfold lookupObject removeObject
        rw [List.find?_append]
        have hlast : List.find? (fun o => decide (o.Bucket = b2 ∧ o.Key = k2))
            [(⟨b, k, d, ct, m, env.now⟩ : StoredObject)] = none := by
          rw [List.find?_cons_of_neg, List.find?_nil]
          simp only [decide_eq_true_eq, not_and]
          exact fun _ hkk => hk hkk.symm
        rw [hlast, Option.or_none]
        apply find_filter_of_imp
        intro x hx
        simp only [decide_eq_true_eq] at hx
        simp only [Bool.not_eq_true', decide_eq_false_iff_not, not_and]
        exact fun _ hkk => hk (hx.2.symm.trans hkk)


theorem logThenEff_done (log : Option Logger) (next : Eff) (err : Option String) (st1 : Store)
    (h : logThenEff log next = .done err st1) : next = .done err st1 := by
  cases log with
  | none => cases h
  | some lg => exact h

theorem StoreChunk_frame (s : Storage) (log : Option Logger) (env : Env) (st : Store)
    (chunk : Chunk) (P : Bytes) (err : Option String) (st1 : Store)
    (h : StoreChunk s log env st chunk P = .done err st1) :
    (∀ o ∈ st1, o ∈ st ∨ o.Key = chunkKey chunk.JobID chunk.ID) ∧
    (∀ b2 k2, k2 ≠ chunkKey chunk.JobID chunk.ID →
      lookupObject st1 b2 k2 = lookupObject st b2 k2) := by
  unfold StoreChunk at h
  split at h
  · cases h
  · split at h
    · cases h
    · dsimp only at h
      split at h
      · rename_i e st0 hput
        have h2 := logThenEff_done _ _ _ _ h
        cases h2
        have hw := PutObject_writes _ _ _ _ _ _ _ _ _ _ hput
        exact ⟨fun o ho => (hw.1 o ho).imp id (fun hk => hk.2), hw.2⟩
      · rename_i st0 hput
        have h2 := logThenEff_done _ _ _ _ h
        cases h2
        have hw := PutObject_writes _ _ _ _ _ _ _ _ _ _ hput
        exact ⟨fun o ho => (hw.1 o ho).imp id (fun hk => hk.2), hw.2⟩

theorem StoreResult_frame (s : Storage) (log : Option Logger) (env : Env) (st : Store)
    (result : Result) (err : Option String) (st1 : Store)
    (h : StoreResult s log env st result = .done err st1) :
    (∀ o ∈ st1, o ∈ st ∨ o.Key = resultKey result.JobID result.ID) ∧
    (∀ b2 k2, k2 ≠ resultKey result.JobID result.ID →
      lookupObject st1 b2 k2 = lookupObject st b2 k2) := by
  unfold StoreResult at h
  simp only at h
  split at h
  · cases h
    exact ⟨fun o ho => Or.inl ho, fun _ _ _ => rfl⟩
  · split at h
    · cases h
    · split at h
      · cases h
      · split at h
        · rename_i e st0 hput
          have h2 := logThenEff_done _ _ _ _ h
          cases h2
          have hw := PutObject_writes _ _ _ _ _ _ _ _ _ _ hput
          exact ⟨fun o ho => (hw.1 o ho).imp id (fun hk => hk.2), hw.2⟩
        · rename_i st0 hput
          have h2 := logThenEff_done _ _ _ _ h
          cases h2
          have hw := PutObject_writes _ _ _ _ _ _ _ _ _ _ hput
          exact ⟨fun o ho => (hw.1 o ho).imp id (fun hk => hk.2), hw.2⟩

theorem chunkKey_under_job (jobID id : String) :
    hasPrefix (chunkKey jobID id) (jobID ++ "/") = true := by
  rw [hasPrefix_iff, chunkKey_data, jobDir_data]
  exact ⟨"chunk_".data ++ id.data, by simp⟩

theorem resultKey_under_job (jobID id : String) :
    hasPrefix (resultKey jobID id) (jobID ++ "/") = true := by
  rw [hasPrefix_iff, resultKey_data2, jobDir_data]
  exact ⟨"result_".data ++ (id.data ++ ".json".data), by simp⟩

/-- C14, as stated, fails for job IDs with a slash in them.  A chunk stored
for job `a/b` is removed by `DeleteJob` for job `a`; and a result stored for
job `a` with the ID `x/y` is returned by `GetJobResults` for job
`a/result_x`. -/
theorem job_scope_broken_by_slash :
    StoreChunk sampleStorage (some Logger.New) quietEnv []
        ⟨"c1", "a/b", "app.log", 0, 3, 3, 0, 0, 0⟩ [10, 20, 30] =
      .done none [⟨"chunks", "a/b/chunk_c1", [10, 20, 30], "text/plain",
        [("job_id", "a/b"), ("chunk_id", "c1"), ("file_name", "app.log"),
         ("start_byte", "0"), ("end_byte", "3")], 7⟩] ∧
    DeleteJob sampleStorage (some Logger.New) quietEnv
        [⟨"chunks", "a/b/chunk_c1", [10, 20, 30], "text/plain",
          [("job_id", "a/b"), ("chunk_id", "c1"), ("file_name", "app.log"),
           ("start_byte", "0"), ("end_byte", "3")], 7⟩] "a" = .done none [] ∧
    StoreResult sampleStorage (some Logger.New) (echoEnv ⟨"x/y", "a", "c1", [], 0, 0, 0, 2⟩) []
        ⟨"x/y", "a", "c1", [], 0, 0, 0, 2⟩ =
      .done none [⟨"results", "a/result_x/y.json", [123, 125], "application/json",
        [("job_id", "a"), ("chunk_id", "c1")], 7⟩] ∧
    GetJobResults sampleStorage (some Logger.New) (echoEnv ⟨"x/y", "a", "c1", [], 0, 0, 0, 2⟩)
        [⟨"results", "a/result_x/y.json", [123, 125], "application/json",
          [("job_id", "a"), ("chunk_id", "c1")], 7⟩] "a/result_x" =
      .ok [⟨"x/y", "a", "c1", [], 0, 0, 0, 2⟩] := by
  decide

/-- C14, amended: every object `StoreChunk` or `StoreResult` adds to the store
lies under the key of the job, which starts with the job ID and a slash; and
for two different job IDs without a slash in them, a `DeleteJob` for the first
that returns leaves every chunk and result object of the second in the store,
and every result `GetJobResults` returns for the first was decoded from an
object under the first job's directory, which is the result object of the
second job for no ID. -/
theorem job_scope_slash_free (s : Storage) (log : Option Logger) (env : Env) (st : Store)
    (j1 j2 : String) (hne : j1 ≠ j2) (h1 : '/' ∉ j1.data) (h2 : '/' ∉ j2.data) :
    (∀ chunk P err st1, StoreChunk s log env st chunk P = .done err st1 →
      ∀ o ∈ st1, o ∈ st ∨
        (o.Key = chunk.JobID ++ "/chunk_" ++ chunk.ID ∧
          hasPrefix o.Key (chunk.JobID ++ "/") = true)) ∧
    (∀ result err st1, StoreResult s log env st result = .done err st1 →
      ∀ o ∈ st1, o ∈ st ∨
        (o.Key = result.JobID ++ "/result_" ++ result.ID ++ ".json" ∧
          hasPrefix o.Key (result.JobID ++ "/") = true)) ∧
    (∀ err st1, DeleteJob s log env st j1 = .done err st1 →
      ∀ o ∈ st, (∃ id, o.Key = chunkKey j2 id ∨ o.Key = resultKey j2 id) → o ∈ st1) ∧
    (∀ out, GetJobResults s log env st j1 = .ok out →
      ∀ r ∈ out, ∃ o ∈ st, env.decode o.Data = .ok r ∧
        hasPrefix o.Key (j1 ++ "/") = true ∧ ∀ id, o.Key ≠ resultKey j2 id) := by
  have hout : ∀ k : String, (∃ id, k = chunkKey j2 id ∨ k = resultKey j2 id) →
      hasPrefix k (j1 ++ "/") = false := by
    rintro k ⟨id, hk | hk⟩
    · exact key_outside_other_job j1 j2 hne h1 h2 k _ (hk ▸ chunkKey_data j2 id)
    · exact key_outside_other_job j1 j2 hne h1 h2 k _ (hk ▸ resultKey_data2 j2 id)
  refine ⟨?_, ?_, ?_, ?_⟩
  · intro chunk P err st1 h o ho
    rcases (StoreChunk_frame s log env st chunk P err st1 h).1 o ho with h3 | h3
    · exact Or.inl h3
    · exact Or.inr ⟨h3, h3 ▸ chunkKey_under_job _ _⟩
  · intro result err st1 h o ho
    rcases (StoreResult_frame s log env st result err st1 h).1 o ho with h3 | h3
    · exact Or.inl h3
    · exact Or.inr ⟨h3, h3 ▸ resultKey_under_job _ _⟩
  · intro err st1 h o ho hk
    obtain ⟨chunks, _, hst⟩ := DeleteJob_done_stores s log env st j1 err st1 h
    have hkeep := removalStore_keeps env st chunks.Name j1 o ho (hout o.Key hk)
    rcases hst with hst | ⟨results, _, hst⟩
    · rw [hst]
      exact hkeep
    · rw [hst]
      exact removalStore_keeps env _ results.Name j1 o hkeep (hout o.Key hk)
  · intro out h r hr
    unfold GetJobResults at h
    split at h
    · cases h
    · split at h
      · cases h
      · rename_i bucket hb hc
        rcases jobResultsLoop_sources log env st bucket.Name _ [] out h r hr with h3 | h3
        · cases h3
        · obtain ⟨e, he, hf⟩ := h3
          obtain ⟨herr, o, ho, _, hkey, hdec⟩ := fetchResult_source env st bucket.Name e r hf
          have hp := listing_keys_under env st bucket.Name _ false e he herr
          rw [← hkey] at hp
          refine ⟨o, ho, hdec, hp, ?_⟩
          intro id hk
          rw [hout o.Key ⟨id, Or.inr hk⟩] at hp
          cases hp

/-- The witness of C14 amended: the jobs `j1` and `j2`, one chunk and one
result each; `DeleteJob` for `j1` leaves the chunk of `j2` in the store. -/
theorem job_scope_slash_free_witness :
    (⟨"chunks", "j2/chunk_c1", [40], "text/plain", [], 7⟩ : StoredObject) ∈
      [(⟨"chunks", "j2/chunk_c1", [40], "text/plain", [], 7⟩ : StoredObject),
        ⟨"results", "j2/result_r1.json", [123, 125], "application/json", [], 7⟩] :=
  (job_scope_slash_free sampleStorage (some Logger.New) quietEnv twoJobStore "j1" "j2"
    (by decide) (by decide) (by decide)).2.2.1 none _ (by decide)
    ⟨"chunks", "j2/chunk_c1", [40], "text/plain", [], 7⟩ (by decide)
    ⟨"c1", Or.inl (by decide)⟩

/-! ## Object keys -/

theorem chunkKey_injective (j1 id1 j2 id2 : String) (h1 : '/' ∉ j1.data) (h2 : '/' ∉ j2.data)
    (h : chunkKey j1 id1 = chunkKey j2 id2) : j1 = j2 ∧ id1 = id2 := by
  have hd : (chunkKey j1 id1).data = (chunkKey j2 id2).data := by rw [h]
  rw [chunkKey_data, chunkKey_data] at hd
  have hj : j1.data = j2.data := slash_split_unique _ _ _ _ h1 h2 hd
  rw [hj] at hd
  have hrest := List.append_cancel_left hd
  simp only [List.cons.injEq, true_and] at hrest
  exact ⟨String.ext hj, String.ext (List.append_cancel_left hrest)⟩

theorem resultKey_injective (j1 id1 j2 id2 : String) (h1 : '/' ∉ j1.data)
    (h2 : '/' ∉ j2.data) (h : resultKey j1 id1 = resultKey j2 id2) : j1 = j2 ∧ id1 = id2 := by
  have hd : (resultKey j1 id1).data = (resultKey j2 id2).data := by rw [h]
  rw [resultKey_data2, resultKey_data2] at hd
  have hj : j1.data = j2.data := slash_split_unique _ _ _ _ h1 h2 hd
  rw [hj] at hd
  have hrest := List.append_cancel_left hd
  simp only [List.cons.injEq, true_and] at hrest
  exact ⟨String.ext hj, String.ext (List.append_cancel_right (List.append_cancel_left hrest))⟩

/-- C15, as stated, fails: two chunks with different (JobID, ID) pairs get the
same object key when a job ID has a slash in it, and so do two results;
storing the second chunk replaces the object of the first. -/
theorem object_keys_collide :
    (("a", "b/chunk_c") : String × String) ≠ ("a/chunk_b", "c") ∧
    "a" ++ "/chunk_" ++ "b/chunk_c" = "a/chunk_b" ++ "/chunk_" ++ "c" ∧
    (("a", "b/result_c") : String × String) ≠ ("a/result_b", "c") ∧
    "a" ++ "/result_" ++ "b/result_c" ++ ".json" = "a/result_b" ++ "/result_" ++ "c" ++ ".json" ∧
    StoreChunk sampleStorage (some Logger.New) quietEnv
        [⟨"chunks", "a/chunk_b/chunk_c", [10, 20, 30], "text/plain",
          [("job_id", "a"), ("chunk_id", "b/chunk_c"), ("file_name", "one.log"),
           ("start_byte", "0"), ("end_byte", "3")], 7⟩]
        ⟨"c", "a/chunk_b", "other.log", 0, 1, 1, 0, 0, 0⟩ [40] =
      .done none [⟨"chunks", "a/chunk_b/chunk_c", [40], "text/plain",
        [("job_id", "a/chunk_b"), ("chunk_id", "c"), ("file_name", "other.log"),
         ("start_byte", "0"), ("end_byte", "1")], 7⟩] ∧
    StoreChunk sampleStorage (some Logger.New) quietEnv []
        ⟨"b/chunk_c", "a", "one.log", 0, 3, 3, 0, 0, 0⟩ [10, 20, 30] =
      .done none [⟨"chunks", "a/chunk_b/chunk_c", [10, 20, 30], "text/plain",
        [("job_id", "a"), ("chunk_id", "b/chunk_c"), ("file_name", "one.log"),
         ("start_byte", "0"), ("end_byte", "3")], 7⟩] := by
  decide

/-- C15, amended: when the two job IDs have no slash in them, different
(JobID, ID) pairs give different chunk keys and different result keys, and a
`StoreChunk` or `StoreResult` for the second pair leaves what the store holds
under the first pair's key, in every bucket, as it was; in particular
`GetChunk` for the first pair returns what it returned before. -/
theorem object_keys_distinct (j1 id1 j2 id2 : String) (h1 : '/' ∉ j1.data)
    (h2 : '/' ∉ j2.data) (hne : (j1, id1) ≠ (j2, id2)) :
    j1 ++ "/chunk_" ++ id1 ≠ j2 ++ "/chunk_" ++ id2 ∧
    j1 ++ "/result_" ++ id1 ++ ".json" ≠ j2 ++ "/result_" ++ id2 ++ ".json" ∧
    (∀ s log env st (chunk : Chunk) P err st1, chunk.JobID = j2 → chunk.ID = id2 →
      StoreChunk s log env st chunk P = .done err st1 →
      (∀ b, lookupObject st1 b (j1 ++ "/chunk_" ++ id1) =
        lookupObject st b (j1 ++ "/chunk_" ++ id1)) ∧
      GetChunk s env st1 j1 id1 = GetChunk s env st j1 id1) ∧
    (∀ s log env st (result : Result) err st1, result.JobID = j2 → result.ID = id2 →
      StoreResult s log env st result = .done err st1 →
      ∀ b, lookupObject st1 b (j1 ++ "/result_" ++ id1 ++ ".json") =
        lookupObject st b (j1 ++ "/result_" ++ id1 ++ ".json")) := by
  have hck : chunkKey j1 id1 ≠ chunkKey j2 id2 := by
    intro h
    obtain ⟨ha, hb⟩ := chunkKey_injective j1 id1 j2 id2 h1 h2 h
    exact hne (by rw [ha, hb])
  have hrk : resultKey j1 id1 ≠ resultKey j2 id2 := by
    intro h
    obtain ⟨ha, hb⟩ := resultKey_injective j1 id1 j2 id2 h1 h2 h
    exact hne (by rw [ha, hb])
  refine ⟨hck, hrk, ?_, ?_⟩
  · intro s log env st chunk P err st1 hj hi h
    have hl := (StoreChunk_frame s log env st chunk P err st1 h).2
    rw [hj, hi] at hl
    refine ⟨fun b => hl b _ hck, ?_⟩
    unfold GetChunk
    cases s.storageOptions.GetBucketByCategory ChunkStorage with
    | none => rfl
    | some bucket =>
      have hsame : lookupObject st1 bucket.Name (j1 ++ "/chunk_" ++ id1) =
          lookupObject st bucket.Name (j1 ++ "/chunk_" ++ id1) := hl bucket.Name _ hck
      simp only [readObject]
      rw [hsame]
  · intro s log env st result err st1 hj hi h
    have hl := (StoreResult_frame s log env st result err st1 h).2
    rw [hj, hi] at hl
    exact fun b => hl b _ hrk

/-- The witness of C15 amended: the chunks `c1` of the jobs `job1` and `job2`. -/
theorem object_keys_distinct_witness :
    "job1" ++ "/chunk_" ++ "c1" ≠ "job2" ++ "/chunk_" ++ "c1" :=
  (object_keys_distinct "job1" "c1" "job2" "c1" (by decide) (by decide) (by decide)).1

/-! ## Logger -/

/-- C16: level gating.  For every configured level, a message of priority
DEBUG, INFO, WARNING or ERR is written exactly when its priority is at least
the level, through the direct method and through `LogAtLevel` alike; at level
INFO a debug message is not written while info, warning and error messages
are. -/
theorem logger_level_gating (l : Logger) (msg : String) (args : List String)
    (caller : Option (String × Int × String)) :
    (l.Debug msg args ≠ [] ↔ DEBUG ≥ l.level) ∧
    (l.LogAtLevel DEBUG msg args ≠ [] ↔ DEBUG ≥ l.level) ∧
    (l.Info msg args ≠ [] ↔ INFO ≥ l.level) ∧
    (l.LogAtLevel INFO msg args ≠ [] ↔ INFO ≥ l.level) ∧
    (l.Warn msg args ≠ [] ↔ WARNING ≥ l.level) ∧
    (l.LogAtLevel WARNING msg args ≠ [] ↔ WARNING ≥ l.level) ∧
    (l.Error caller msg args ≠ [] ↔ ERR ≥ l.level) ∧
    (l.LogAtLevel ERR msg args ≠ [] ↔ ERR ≥ l.level) ∧
    (Logger.mk INFO).Debug msg args = [] ∧
    (Logger.mk INFO).LogAtLevel DEBUG msg args = [] ∧
    (Logger.mk INFO).Info msg args = [⟨"INFO", msg, args⟩] ∧
    (Logger.mk INFO).LogAtLevel INFO msg args = [⟨"INFO", msg, args⟩] ∧
    (Logger.mk INFO).Warn msg args = [⟨"WARN", msg, args⟩] ∧
    (Logger.mk INFO).LogAtLevel WARNING msg args = [⟨"WARN", msg, args⟩] ∧
    (Logger.mk INFO).Error caller msg args ≠ [] ∧
    (Logger.mk INFO).LogAtLevel ERR msg args ≠ [] := by
  obtain ⟨L⟩ := l
  refine ⟨?_, ?_, ?_, ?_, ?_, ?_, ?_, ?_, ?_, ?_, ?_, ?_, ?_, ?_, ?_, ?_⟩
  · by_cases h : L ≤ 0 <;> simp [Logger.Debug, DEBUG, h]
  · by_cases h : L ≤ 0
    · have h2 : ¬ (0 : Int) < L := not_lt.mpr h
      simp [Logger.LogAtLevel, Logger.Debug, DEBUG, h, h2]
    · have h2 : (0 : Int) < L := lt_of_not_le h
      simp [Logger.LogAtLevel, DEBUG, h, h2]
  · by_cases h : L ≤ 1 <;> simp [Logger.Info, INFO, h]
  · by_cases h : L ≤ 1
    · have h2 : ¬ (1 : Int) < L := not_lt.mpr h
      simp [Logger.LogAtLevel, Logger.Info, INFO, DEBUG, h, h2]
    · have h2 : (1 : Int) < L := lt_of_not_le h
      simp [Logger.LogAtLevel, INFO, h, h2]
  · by_cases h : L ≤ 2 <;> simp [Logger.Warn, WARNING, h]
  · by_cases h : L ≤ 2
    · have h2 : ¬ (2 : Int) < L := not_lt.mpr h
      simp [Logger.LogAtLevel, Logger.Warn, WARNING, INFO, DEBUG, h, h2]
    · have h2 : (2 : Int) < L := lt_of_not_le h
      simp [Logger.LogAtLevel, WARNING, h, h2]
  · by_cases h : L ≤ 3
    · cases caller with
      | none => simp [Logger.Error, ERR, h]
      | some c => simp [Logger.Error, ERR, h]
    · simp [Logger.Error, ERR, h]
  · by_cases h : L ≤ 3
    · have h2 : ¬ (3 : Int) < L := not_lt.mpr h
      simp [Logger.LogAtLevel, Logger.Error, ERR, WARNING, INFO, DEBUG, h, h2]
    · have h2 : (3 : Int) < L := lt_of_not_le h
      simp [Logger.LogAtLevel, ERR, h, h2]
  · simp [Logger.Debug, DEBUG, INFO]
  · simp [Logger.LogAtLevel, DEBUG, INFO]
  · simp [Logger.Info, INFO]
  · simp [Logger.LogAtLevel, Logger.Info, DEBUG, INFO]
  · simp [Logger.Warn, WARNING, INFO]
  · simp [Logger.LogAtLevel, Logger.Warn, WARNING, DEBUG, INFO]
  · cases caller with
    | none => simp [Logger.Error, ERR, INFO]
    | some c => simp [Logger.Error, ERR, INFO]
  · simp [Logger.LogAtLevel, Logger.Error, ERR, WARNING, DEBUG, INFO]

/-! ## The package logger -/

theorem New_package_logger (endpoint accessKeyID secretAccessKey : String) (ssl : Bool)
    (log : Option Logger) (opts : StorageOptions) (pkgLog : Option Logger) :
    (New endpoint accessKeyID secretAccessKey ssl log opts pkgLog).2.2 =
      match log with
      | none => some Logger.New
      | some _ => pkgLog := by
  cases log <;> rfl

theorem ensureBuckets_nil_logger (w : BucketWorld) (l : List BucketOptions)
    (buckets : List String) (e : String) (buckets1 : List String) :
    ensureBuckets none w l buckets ≠ .done (some e) buckets1 := by
  induction l generalizing buckets with
  | nil => simp [ensureBuckets]
  | cons b rest ih =>
    unfold ensureBuckets
    split
    · simp [logThenProvisioned]
    · split
      · exact ih buckets
      · split
        · simp [logThenProvisioned]
        · simp [logThenProvisioned]

theorem Instantiate_nil_logger_panics (s : Storage) (w : BucketWorld) (buckets : List String) :
    Instantiate s none w buckets = .panic := by
  unfold Instantiate
  split
  · rfl
  · split
    · rfl
    · rename_i e b1 h
      exact absurd h (ensureBuckets_nil_logger w _ buckets e b1)
    · rfl

/-- C17: in a fresh process, where the package logger is nil, `New` with a
logger argument that is not nil leaves the package logger nil (only a nil
argument reaches `InitLogger`, which would have stored the logger given);
`Instantiate` and the storage operations then log through the nil logger and
panic.  With a nil argument the package logger becomes the default logger. -/
theorem New_leaves_package_logger_nil :
    New "localhost:9000" "minio" "minio123" false (some ⟨DEBUG⟩) sampleOptions none =
      (⟨⟨"localhost:9000", "minio", "minio123", false⟩, false, sampleOptions⟩, none, none) ∧
    InitLogger (some ⟨DEBUG⟩) = some ⟨DEBUG⟩ ∧
    New "localhost:9000" "minio" "minio123" false none sampleOptions none =
      (⟨⟨"localhost:9000", "minio", "minio123", false⟩, false, sampleOptions⟩, none,
        some Logger.New) ∧
    Instantiate ⟨⟨"localhost:9000", "minio", "minio123", false⟩, false, sampleOptions⟩ none
      quietWorld [] = .panic ∧
    Instantiate ⟨⟨"localhost:9000", "minio", "minio123", false⟩, false, sampleOptions⟩
      (some Logger.New) quietWorld [] = .done none sampleStorage ["logs", "chunks", "results"] ∧
    StoreChunk sampleStorage none quietEnv []
      ⟨"chunk1", "job123", "service1/app.log", 0, 3, 3, 0, 0, 0⟩ [10, 20, 30] = .panic := by
  decide

end DistGrep
